import Mathlib

/-!
Verification of the ATLAS fact-resolution and unit-economics engine.

This file shallowly embeds the Python modules
`src/xbrl/fact_index.py`, `src/xbrl/fact_extractor.py`,
`src/xbrl/concept_resolver.py`, `src/atlas/economic_identities.py`,
`src/atlas/identity_solver.py`, `src/atlas/cost_structure.py` and the
tax-rate fragment of `src/atlas/unit_economics.py` into Lean, and proves
or refutes the specification claims about them.

Modelling conventions used throughout:
* Python floats are modelled as rationals (`ℚ`); float parsing of a raw
  string is modelled at the post-parse level as an `Option ℚ` field
  (`none` = the string does not parse as a number).
* Python dicts are modelled as association lists in insertion order
  (Python dicts preserve insertion order); `dict.get` is first-match
  lookup.
* A Python value that may be `None` is an `Option`; a dict whose values
  may be `None` is an association list of `Option` values, so that
  "key absent" (`none` at lookup) and "key bound to None"
  (`some none` at lookup) stay distinguishable, exactly as in Python.
* Exceptions that a function swallows internally are modelled by
  returning `none`; exceptions that escape are modelled with `Except`.
-/

/-- First-match association-list lookup: `dict.get(k)` on a Python dict
modelled in insertion order (keys are unique in an actual dict, so
first-match agrees with the dict). -/
def alookup {κ β : Type} [DecidableEq κ] : List (κ × β) → κ → Option β
  | [], _ => none
  | p :: rest, k => if p.1 = k then some p.2 else alookup rest k

/-- Association-list update: `d[k] = v` on a Python dict — replace the
binding if the key is present, else append it (insertion order). -/
def aset {κ β : Type} [DecidableEq κ] : List (κ × β) → κ → β → List (κ × β)
  | [], k, v => [(k, v)]
  | p :: rest, k, v => if p.1 = k then (k, v) :: rest else p :: aset rest k v

theorem alookup_aset {κ β : Type} [DecidableEq κ] (d : List (κ × β)) (k : κ) (v : β) :
    alookup (aset d k v) k = some v := by
  induction d with
  | nil => simp [aset, alookup]
  | cons p rest ih =>
    by_cases h : p.1 = k
    · simp [aset, h, alookup]
    · simp [aset, h, alookup, ih]

theorem alookup_aset_ne {κ β : Type} [DecidableEq κ] (d : List (κ × β)) (k k' : κ) (v : β)
    (h : k' ≠ k) : alookup (aset d k v) k' = alookup d k' := by
  induction d with
  | nil => simp [aset, alookup, Ne.symm h]
  | cons p rest ih =>
    by_cases hp : p.1 = k
    · have hpk : p.1 ≠ k' := by rw [hp]; exact Ne.symm h
      simp [aset, hp, alookup, Ne.symm h, hpk]
    · by_cases hp' : p.1 = k'
      · simp [aset, hp, alookup, hp', h]
      · simp [aset, hp, alookup, hp', ih]

/-! ## Economic identities (`src/atlas/economic_identities.py`)

The SymPy equations are embedded as expression trees over named
variables with rational constants.  `sympy.solve` on the identity table
(each identity is linear-fractional in each of its variables, since
every variable occurs at most once in an identity) is embedded by
`linFrac`/`mobiusSolve` below.  SymPy behaviour that is modelled as
`none`: substitution of a `None` value (a `SympifyError`), a division by
zero during evaluation (`zoo`/`nan`, whose `float()` conversion raises),
a missing variable (symbolic result, rejected by the `is_real` check),
an identically-true/false equation after substitution (empty solution
list), and a candidate solution that zeroes a denominator (removed by
SymPy's `checksol`). -/

inductive Expr : Type where
  | var : String → Expr
  | num : ℚ → Expr
  | add : Expr → Expr → Expr
  | sub : Expr → Expr → Expr
  | mul : Expr → Expr → Expr
  | div : Expr → Expr → Expr
deriving DecidableEq

/-- The free variables of an expression (`expr.free_symbols`). -/
def Expr.freeVars : Expr → List String
  | .var s => [s]
  | .num _ => []
  | .add a b => a.freeVars ++ b.freeVars
  | .sub a b => a.freeVars ++ b.freeVars
  | .mul a b => a.freeVars ++ b.freeVars
  | .div a b => a.freeVars ++ b.freeVars

/-- Whether variable `v` occurs in `e`. -/
def occurs (v : String) (e : Expr) : Bool := e.freeVars.contains v

/-- Numeric evaluation of an expression under a partial environment.
`none` models an evaluation that SymPy cannot turn into a plain float:
a missing variable or a division by zero. -/
def evalE (env : String → Option ℚ) : Expr → Option ℚ
  | .var s => env s
  | .num q => some q
  | .add a b =>
    match evalE env a, evalE env b with
    | some x, some y => some (x + y)
    | _, _ => none
  | .sub a b =>
    match evalE env a, evalE env b with
    | some x, some y => some (x - y)
    | _, _ => none
  | .mul a b =>
    match evalE env a, evalE env b with
    | some x, some y => some (x * y)
    | _, _ => none
  | .div a b =>
    match evalE env a, evalE env b with
    | some x, some y => if y = 0 then none else some (x / y)
    | _, _ => none

/-- Linear-fractional decomposition of `e` in the variable `v` under an
environment for the other variables: `some (a, b, c, d)` means that for
every value `t` of `v` with `c*t + d ≠ 0`, `e` evaluates to
`(a*t + b) / (c*t + d)`.  This captures exactly the equations SymPy is
asked to solve for the identity table, where each variable occurs at
most once and only flat (non-nested) divisions appear. -/
def linFrac (env : String → Option ℚ) (v : String) : Expr → Option (ℚ × ℚ × ℚ × ℚ)
  | .var s =>
    if s = v then some (1, 0, 0, 1)
    else match env s with
      | some q => some (0, q, 0, 1)
      | none => none
  | .num q => some (0, q, 0, 1)
  | .add a b =>
    match occurs v a, occurs v b with
    | true, true => none
    | true, false =>
      (match linFrac env v a, evalE env b with
       | some (p, q, r, s), some k => some (p + k * r, q + k * s, r, s)
       | _, _ => none)
    | false, true =>
      (match linFrac env v b, evalE env a with
       | some (p, q, r, s), some k => some (p + k * r, q + k * s, r, s)
       | _, _ => none)
    | false, false =>
      (match evalE env (.add a b) with
       | some k => some (0, k, 0, 1)
       | none => none)
  | .sub a b =>
    match occurs v a, occurs v b with
    | true, true => none
    | true, false =>
      (match linFrac env v a, evalE env b with
       | some (p, q, r, s), some k => some (p - k * r, q - k * s, r, s)
       | _, _ => none)
    | false, true =>
      (match linFrac env v b, evalE env a with
       | some (p, q, r, s), some k => some (k * r - p, k * s - q, r, s)
       | _, _ => none)
    | false, false =>
      (match evalE env (.sub a b) with
       | some k => some (0, k, 0, 1)
       | none => none)
  | .mul a b =>
    match occurs v a, occurs v b with
    | true, true => none
    | true, false =>
      (match linFrac env v a, evalE env b with
       | some (p, q, r, s), some k => some (k * p, k * q, r, s)
       | _, _ => none)
    | false, true =>
      (match linFrac env v b, evalE env a with
       | some (p, q, r, s), some k => some (k * p, k * q, r, s)
       | _, _ => none)
    | false, false =>
      (match evalE env (.mul a b) with
       | some k => some (0, k, 0, 1)
       | none => none)
  | .div a b =>
    match occurs v a, occurs v b with
    | true, true => none
    | true, false =>
      (match linFrac env v a, evalE env b with
       | some (p, q, r, s), some k =>
         if k = 0 then none else some (p / k, q / k, r, s)
       | _, _ => none)
    | false, true =>
      (match linFrac env v b, evalE env a with
       | some (p, q, r, s), some k =>
         if r = 0 then (if s = 0 then none else some (0, k * s, p, q)) else none
       | _, _ => none)
    | false, false =>
      (match evalE env (.div a b) with
       | some k => some (0, k, 0, 1)
       | none => none)

/-- Solve `(a*t + b) / (c*t + d) = L` for `t`.  The unique candidate is
`(L*d - b) / (a - L*c)`; no solution when the equation degenerates
(`a - L*c = 0`, SymPy returns an empty solution list) or when the
candidate zeroes the denominator (removed by SymPy's `checksol`). -/
def mobiusSolve (L a b c d : ℚ) : Option ℚ :=
  if a - L * c = 0 then none
  else
    let t := (L * d - b) / (a - L * c)
    if c * t + d = 0 then none else some t

/-- The identity table `IDENTITIES` (name, lhs, rhs). -/
def IDENTITIES : List (String × Expr × Expr) :=
  [("CAC_Identity", .var "CAC",
     .div (.sub (.var "SalesMarketing") (.var "RetentionMarketing")) (.var "GrossNewCustomers")),
   ("GrossNewCustomers_Identity", .var "GrossNewCustomers",
     .add (.var "DeltaCustomers") (.var "ChurnedCustomers")),
   ("ChurnedCustomers_Identity", .var "ChurnedCustomers",
     .mul (.var "Customers_start") (.var "ChurnRate")),
   ("ContributionMargin_Identity", .var "ContributionMarginPerUnit",
     .div (.sub (.var "Revenue") (.var "COGS_variable")) (.var "VolumeDriver")),
   ("UnitRevenue_Identity", .var "RevenuePerUnit",
     .div (.var "Revenue") (.var "VolumeDriver")),
   ("VariableCostPerUnit_Identity", .var "VariableCostPerUnit",
     .div (.var "COGS_variable") (.var "VolumeDriver")),
   ("ContributionMargin_Check", .var "ContributionMarginPerUnit",
     .sub (.var "RevenuePerUnit") (.var "VariableCostPerUnit")),
   ("ReinvestmentRate_Identity", .var "ReinvestmentRate",
     .div (.add (.add (.var "Capex") (.var "DeltaWorkingCapital")) (.var "RnD")) (.var "NOPAT")),
   ("NOPAT_Identity", .var "NOPAT",
     .mul (.var "OperatingIncome") (.sub (.num 1) (.var "TaxRate"))),
   ("InvestedCapital_Identity", .var "InvestedCapital",
     .add (.add (.add (.var "PPE") (.var "NetWorkingCapital")) (.var "Goodwill"))
       (.var "AcquiredIntangibles")),
   ("ROIC_Identity", .var "ROIC",
     .div (.var "NOPAT") (.var "InvestedCapital")),
   ("COGS_Variable_Constraint", .var "COGS_variable",
     .mul (.var "ElasticityRevenue") (.var "Revenue")),
   ("SalesCommissions_Constraint", .var "SalesCommissions",
     .mul (.var "ElasticityNewUnits") (.var "GrossNewCustomers")),
   ("PaymentProcessing_Constraint", .var "PaymentProcessing",
     .mul (.var "ElasticityRevShare") (.var "Revenue"))]

/-- A unit-economics model: a Python dict from variable name to float or
`None` (insertion-ordered association list, values `Option ℚ`). -/
abbrev Model := List (String × Option ℚ)

/-- `model.get(k)` — `none` both for an absent key and a key bound to
`None` (which is exactly how the solver tests it). -/
def mget (m : Model) (k : String) : Option ℚ := (alookup m k).bind id

/-- The substitution environment SymPy sees: only keys bound to an
actual number contribute. -/
def envOf (m : Model) : String → Option ℚ := fun s => mget m s

/-- Whether some symbol of `syms` is bound to `None` in the dict — in
that case `equation.subs` raises a `SympifyError` in Python. -/
def noneBound (m : Model) (syms : List String) : Bool :=
  syms.any fun s => decide (alookup m s = some none)

/-- `evaluate_identity(name, inputs)`: the lhs-minus-rhs difference, or
`none` when Python raises (unknown identity, `None` substitution,
missing variable, division by zero). -/
def evaluate_identity (name : String) (inputs : Model) : Option ℚ :=
  match alookup IDENTITIES name with
  | none => none
  | some (lhs, rhs) =>
    if noneBound inputs (lhs.freeVars ++ rhs.freeVars) then none
    else
      match evalE (envOf inputs) lhs, evalE (envOf inputs) rhs with
      | some l, some r => some (l - r)
      | _, _ => none

/-- `check_consistency(name, inputs, tolerance)`. -/
def check_consistency (name : String) (inputs : Model) (tolerance : ℚ) : Bool :=
  match evaluate_identity name inputs with
  | some diff => decide (|diff| < tolerance)
  | none => false

/-- `solve_identity(name, knowns, solve_for)`: `none` models every raised
exception (unknown identity, target not in the identity, `SympifyError`
from a `None` binding, no real solution).  A target that is itself a
key of `knowns` is substituted away by `equation.subs`, so `solve`
cannot return a solution for it. -/
def solve_identity (name : String) (knowns : Model) (target : String) : Option ℚ :=
  match alookup IDENTITIES name with
  | none => none
  | some (lhs, rhs) =>
    if occurs target lhs || occurs target rhs then
      if noneBound knowns (lhs.freeVars ++ rhs.freeVars) then none
      else if (alookup knowns target).isSome then none
      else
        match occurs target lhs, occurs target rhs with
        | true, true => none
        | true, false =>
          (match evalE (envOf knowns) rhs, linFrac (envOf knowns) target lhs with
           | some L, some (a, b, c, d) => mobiusSolve L a b c d
           | _, _ => none)
        | false, true =>
          (match evalE (envOf knowns) lhs, linFrac (envOf knowns) target rhs with
           | some L, some (a, b, c, d) => mobiusSolve L a b c d
           | _, _ => none)
        | false, false => none
    else none

/-! ## Identity solver (`src/atlas/identity_solver.py`) -/

/-- `solve_unit_identity` re-raises solve failures as `IdentityError`;
the fixpoint loop swallows both, so the `Option` model is unchanged. -/
def solve_unit_identity (name : String) (inputs : Model) (target : String) : Option ℚ :=
  solve_identity name inputs target

/-- One row of the `solvers` table: (identity, target, requires). -/
structure SRule where
  name : String
  target : String
  requires : List String
deriving DecidableEq

/-- The `solvers` table of `solve_missing_values`, in source order. -/
def SOLVERS : List SRule :=
  [⟨"CAC_Identity", "CAC", ["SalesMarketing", "RetentionMarketing", "GrossNewCustomers"]⟩,
   ⟨"CAC_Identity", "GrossNewCustomers", ["SalesMarketing", "RetentionMarketing", "CAC"]⟩,
   ⟨"UnitRevenue_Identity", "RevenuePerUnit", ["Revenue", "VolumeDriver"]⟩,
   ⟨"VariableCostPerUnit_Identity", "VariableCostPerUnit", ["COGS_variable", "VolumeDriver"]⟩,
   ⟨"ContributionMargin_Identity", "ContributionMarginPerUnit",
     ["Revenue", "COGS_variable", "VolumeDriver"]⟩,
   ⟨"ContributionMargin_Check", "ContributionMarginPerUnit",
     ["RevenuePerUnit", "VariableCostPerUnit"]⟩,
   ⟨"NOPAT_Identity", "NOPAT", ["OperatingIncome", "TaxRate"]⟩,
   ⟨"ROIC_Identity", "ROIC", ["NOPAT", "InvestedCapital"]⟩,
   ⟨"ReinvestmentRate_Identity", "ReinvestmentRate",
     ["Capex", "DeltaWorkingCapital", "RnD", "NOPAT"]⟩]

/-- One rule of the inner `for` loop: fire the rule if its target is
still unknown, all requirements are known, and the solve succeeds. -/
def applyRule (m : Model) (r : SRule) : Model × Bool :=
  if mget m r.target = none then
    if r.requires.all (fun q => (mget m q).isSome) then
      match solve_unit_identity r.name m r.target with
      | some v => (aset m r.target (some v), true)
      | none => (m, false)
    else (m, false)
  else (m, false)

/-- One full pass of the inner `for` loop over a rule list, threading the
updated model and the sticky `changed` flag. -/
def runRules : Model → List SRule → Model × Bool
  | m, [] => (m, false)
  | m, r :: rs =>
    let p := applyRule m r
    let q := runRules p.1 rs
    (q.1, p.2 || q.2)

/-- One pass of the `while changed` loop body. -/
def runPass (m : Model) : Model × Bool := runRules m SOLVERS

/-- The `while changed` loop, written with explicit fuel.  One unit of
fuel is one pass; `claim3_terminates` proves that
`SOLVERS.length + 1` passes always reach the loop's exit condition, so
the fuelled function equals the Python loop. -/
def solveLoop : Nat → Model → Model
  | 0, m => m
  | n + 1, m =>
    match runPass m with
    | (m', true) => solveLoop n m'
    | (m', false) => m'

/-- `solve_missing_values(ue_model)`. -/
def solve_missing_values (m : Model) : Model := solveLoop (SOLVERS.length + 1) m

/-! ## Solver lemmas -/

theorem mget_aset (m : Model) (k : String) (v : Option ℚ) : mget (aset m k v) k = v := by
  simp [mget, alookup_aset]

theorem mget_aset_ne (m : Model) (k k' : String) (v : Option ℚ) (h : k' ≠ k) :
    mget (aset m k v) k' = mget m k' := by
  simp [mget, alookup_aset_ne m k k' v h]

/-- Shape of one rule application: either a no-op with `changed = False`,
or the still-unknown target gets a value and `changed = True`. -/
theorem applyRule_spec (m : Model) (r : SRule) :
    applyRule m r = (m, false) ∨
    (mget m r.target = none ∧ ∃ v, applyRule m r = (aset m r.target (some v), true)) := by
  unfold applyRule
  by_cases h1 : mget m r.target = none
  · by_cases h2 : r.requires.all (fun q => (mget m q).isSome)
    · cases hs : solve_unit_identity r.name m r.target with
      | none => simp [h1, h2, hs]
      | some v => exact Or.inr ⟨h1, v, by simp [h1, h2, hs]⟩
    · simp [h1, h2]
  · simp [h1]

theorem applyRule_pres (m : Model) (r : SRule) (k : String) (q : ℚ)
    (h : mget m k = some q) : mget (applyRule m r).1 k = some q := by
  rcases applyRule_spec m r with he | ⟨ht, v, he⟩
  · rw [he]; exact h
  · rw [he]
    have hk : k ≠ r.target := by
      intro hk; rw [hk, ht] at h; cases h
    rw [mget_aset_ne m r.target k (some v) hk]; exact h

theorem applyRule_change (m : Model) (r : SRule) (k : String)
    (h : mget (applyRule m r).1 k ≠ mget m k) : k = r.target ∧ mget m k = none := by
  rcases applyRule_spec m r with he | ⟨ht, v, he⟩
  · rw [he] at h; cases h rfl
  · rw [he] at h
    by_cases hk : k = r.target
    · exact ⟨hk, by rw [hk]; exact ht⟩
    · rw [mget_aset_ne m r.target k (some v) hk] at h; cases h rfl

theorem runRules_pres (rs : List SRule) (m : Model) (k : String) (q : ℚ)
    (h : mget m k = some q) : mget (runRules m rs).1 k = some q := by
  induction rs generalizing m with
  | nil => exact h
  | cons r rest ih =>
    simp only [runRules]
    exact ih (applyRule m r).1 (applyRule_pres m r k q h)

theorem runRules_change (rs : List SRule) (m : Model) (k : String)
    (h : mget (runRules m rs).1 k ≠ mget m k) :
    mget m k = none ∧ k ∈ rs.map SRule.target := by
  induction rs generalizing m with
  | nil => cases h rfl
  | cons r rest ih =>
    simp only [runRules] at h
    by_cases h1 : mget (applyRule m r).1 k = mget m k
    · have h2 : mget (runRules (applyRule m r).1 rest).1 k ≠ mget (applyRule m r).1 k := by
        rw [h1]; exact h
      have h3 := ih (applyRule m r).1 h2
      rw [h1] at h3
      exact ⟨h3.1, by simp [h3.2]⟩
    · have h3 := applyRule_change m r k h1
      exact ⟨h3.2, by simp [h3.1]⟩

theorem runRules_false (rs : List SRule) (m : Model)
    (h : (runRules m rs).2 = false) : (runRules m rs).1 = m := by
  induction rs generalizing m with
  | nil => rfl
  | cons r rest ih =>
    simp only [runRules, Bool.or_eq_false_iff] at h ⊢
    rcases applyRule_spec m r with he | ⟨ht, v, he⟩
    · rw [he] at h ⊢; exact ih m h.2
    · rw [he] at h; cases h.1

theorem runRules_true (rs : List SRule) (m : Model)
    (h : (runRules m rs).2 = true) :
    ∃ t ∈ rs.map SRule.target, mget m t = none ∧ (mget (runRules m rs).1 t).isSome := by
  induction rs generalizing m with
  | nil => cases h
  | cons r rest ih =>
    simp only [runRules, Bool.or_eq_true] at h
    rcases applyRule_spec m r with he | ⟨ht, v, he⟩
    · have he1 : (applyRule m r).1 = m := by rw [he]
      rcases h with h1 | h2
      · rw [he] at h1; cases h1
      · rw [he1] at h2
        obtain ⟨t, htm, hn, hs⟩ := ih m h2
        refine ⟨t, by simp [htm], hn, ?_⟩
        simp only [runRules, he1]
        exact hs
    · have he1 : (applyRule m r).1 = aset m r.target (some v) := by rw [he]
      refine ⟨r.target, by simp, ht, ?_⟩
      simp only [runRules, he1]
      have h0 : mget (aset m r.target (some v)) r.target = some v :=
        mget_aset m r.target (some v)
      have h3 := runRules_pres rest (aset m r.target (some v)) r.target v h0
      simp [h3]

/-- Number of solver targets still unknown in a model. -/
def unkCount (m : Model) : Nat :=
  ((SOLVERS.map SRule.target).dedup.filter (fun t => decide (mget m t = none))).length

theorem filter_length_le_of_imp {α : Type} (l : List α) (p p' : α → Bool)
    (hmono : ∀ x ∈ l, p' x = true → p x = true) :
    (l.filter p').length ≤ (l.filter p).length := by
  induction l with
  | nil => simp
  | cons a rest ih =>
    have ih' := ih (fun x hx => hmono x (List.mem_cons_of_mem a hx))
    by_cases hp' : p' a = true
    · have hp := hmono a (List.mem_cons_self a rest) hp'
      simp [List.filter, hp, hp']
      omega
    · simp only [List.filter, hp']
      by_cases hp : p a = true
      · simp only [hp]
        exact Nat.le_succ_of_le ih'
      · simp only [Bool.not_eq_true] at hp hp'
        simp only [hp, hp']
        exact ih'

theorem filter_length_lt_of_imp {α : Type} (l : List α) (p p' : α → Bool)
    (hmono : ∀ x ∈ l, p' x = true → p x = true)
    (x0 : α) (hx0 : x0 ∈ l) (hp : p x0 = true) (hp' : p' x0 = false) :
    (l.filter p').length < (l.filter p).length := by
  induction l with
  | nil => cases hx0
  | cons a rest ih =>
    have hmono' : ∀ x ∈ rest, p' x = true → p x = true :=
      fun x hx => hmono x (List.mem_cons_of_mem a hx)
    rcases List.mem_cons.mp hx0 with h0 | h0
    · subst h0
      simp only [List.filter, hp, hp']
      have := filter_length_le_of_imp rest p p' hmono'
      simp only [List.length_cons]
      omega
    · have ihr := ih hmono' h0
      by_cases hpa' : p' a = true
      · have hpa := hmono a (List.mem_cons_self a rest) hpa'
        simp only [List.filter, hpa, hpa', List.length_cons]
        omega
      · simp only [Bool.not_eq_true] at hpa'
        simp only [List.filter, hpa']
        by_cases hpa : p a = true
        · simp only [hpa, List.length_cons]
          omega
        · simp only [Bool.not_eq_true] at hpa
          simp only [hpa]
          exact ihr

/-- A pass that reports progress strictly decreases the number of
unknown solver targets. -/
theorem runPass_decrease (m : Model) (h : (runPass m).2 = true) :
    unkCount (runPass m).1 < unkCount m := by
  simp only [runPass] at h ⊢
  obtain ⟨t, htm, hn, hs⟩ := runRules_true SOLVERS m h
  unfold unkCount
  apply filter_length_lt_of_imp _ _ _ ?_ t (List.mem_dedup.mpr htm) (by simp [hn]) ?_
  · intro x _ hx'
    simp only [decide_eq_true_eq] at hx' ⊢
    by_contra hx
    obtain ⟨q, hq⟩ := Option.ne_none_iff_exists'.mp hx
    have hp := runRules_pres SOLVERS m x q hq
    rw [hp] at hx'
    cases hx'
  · simp only [decide_eq_false_iff_not]
    intro hnone
    rw [hnone] at hs
    cases hs

/-- A pass that reports no progress leaves the model unchanged. -/
theorem runPass_false (m : Model) (h : (runPass m).2 = false) : (runPass m).1 = m :=
  runRules_false SOLVERS m h

/-- With fuel exceeding the number of unknown targets, the fuelled loop
reaches a genuine fixpoint of the pass function (the `while` loop's exit
condition). -/
theorem solveLoop_fix (n : Nat) (m : Model) (h : unkCount m < n) :
    runPass (solveLoop n m) = (solveLoop n m, false) := by
  induction n generalizing m with
  | zero => omega
  | succ k ih =>
    rcases hrp : runPass m with ⟨m', c⟩
    cases c with
    | false =>
      have hm : m' = m := by
        have h2 := runPass_false m (by rw [hrp])
        rw [hrp] at h2; exact h2
      subst hm
      simp only [solveLoop, hrp]
    | true =>
      have hdec : unkCount m' < unkCount m := by
        have := runPass_decrease m (by rw [hrp])
        rw [hrp] at this; exact this
      simp only [solveLoop, hrp]
      exact ih m' (by omega)

theorem solveLoop_eq_of_lt (n₁ : Nat) (n₂ : Nat) (m : Model)
    (h : unkCount m < n₁) (hle : n₁ ≤ n₂) : solveLoop n₁ m = solveLoop n₂ m := by
  induction n₁ generalizing m n₂ with
  | zero => omega
  | succ k ih =>
    obtain ⟨j, rfl⟩ : ∃ j, n₂ = j + 1 := ⟨n₂ - 1, by omega⟩
    rcases hrp : runPass m with ⟨m', c⟩
    cases c with
    | false => simp only [solveLoop, hrp]
    | true =>
      have hdec : unkCount m' < unkCount m := by
        have := runPass_decrease m (by rw [hrp])
        rw [hrp] at this; exact this
      simp only [solveLoop, hrp]
      exact ih j m' (by omega) (by omega)

theorem unkCount_lt_fuel (m : Model) : unkCount m < SOLVERS.length + 1 := by
  have h1 : unkCount m ≤ (SOLVERS.map SRule.target).dedup.length :=
    List.length_filter_le _ _
  have h2 : (SOLVERS.map SRule.target).dedup.length ≤ (SOLVERS.map SRule.target).length :=
    (List.dedup_sublist _).length_le
  have h3 : (SOLVERS.map SRule.target).length = SOLVERS.length := List.length_map _ _
  omega

theorem solveLoop_pres (n : Nat) (m : Model) (k : String) (q : ℚ)
    (h : mget m k = some q) : mget (solveLoop n m) k = some q := by
  induction n generalizing m with
  | zero => exact h
  | succ j ih =>
    rcases hrp : runPass m with ⟨m', c⟩
    have hm' : mget m' k = some q := by
      have := runRules_pres SOLVERS m k q h
      rw [show (runRules m SOLVERS).1 = m' by rw [show runRules m SOLVERS = (m', c) from hrp]] at this
      exact this
    cases c with
    | false => simp only [solveLoop, hrp]; exact hm'
    | true => simp only [solveLoop, hrp]; exact ih m' hm'

theorem solveLoop_change (n : Nat) (m : Model) (k : String)
    (h : mget (solveLoop n m) k ≠ mget m k) :
    mget m k = none ∧ k ∈ SOLVERS.map SRule.target := by
  induction n generalizing m with
  | zero => cases h rfl
  | succ j ih =>
    rcases hrp : runPass m with ⟨m', c⟩
    have hrr : runRules m SOLVERS = (m', c) := hrp
    cases c with
    | false =>
      have hm0 := runRules_false SOLVERS m (by rw [hrr])
      rw [hrr] at hm0
      have hm : m' = m := hm0
      simp only [solveLoop, hrp] at h
      rw [hm] at h
      cases h rfl
    | true =>
      simp only [solveLoop, hrp] at h
      by_cases h1 : mget m' k = mget m k
      · have h2 : mget (solveLoop j m') k ≠ mget m' k := by rw [h1]; exact h
        have h3 := ih m' h2
        rw [h1] at h3
        exact h3
      · have h2 : mget (runRules m SOLVERS).1 k ≠ mget m k := by
          rw [show (runRules m SOLVERS).1 = m' by rw [hrr]]
          exact h1
        exact runRules_change SOLVERS m k h2

/-- **C2.**  `solve_missing_values` is monotone: every key bound to an
actual value in the input keeps exactly that value in the output (known
values are never overwritten), and any key whose binding changes was
previously missing/`None` and is a target of the solver table. -/
theorem claim2_monotone (m : Model) (k : String) :
    (∀ q : ℚ, mget m k = some q → mget (solve_missing_values m) k = some q) ∧
    (mget (solve_missing_values m) k ≠ mget m k →
      mget m k = none ∧ k ∈ SOLVERS.map SRule.target) := by
  constructor
  · intro q hq
    exact solveLoop_pres (SOLVERS.length + 1) m k q hq
  · intro h
    exact solveLoop_change (SOLVERS.length + 1) m k h

/-- Witness for C2 at a concrete model. -/
theorem claim2_monotone_witness :
    mget [("Revenue", some 5)] "Revenue" = some 5 ∧
    mget (solve_missing_values [("Revenue", some 5)]) "Revenue" = some 5 :=
  ⟨rfl, (claim2_monotone [("Revenue", some 5)] "Revenue").1 5 rfl⟩

/-- **C3.**  `solve_missing_values` terminates on every input model: the
fuelled loop with `len(solvers) + 1` passes reaches a state on which a
further pass makes no change and reports `changed = False` (the Python
`while` loop's exit condition), and granting any more fuel cannot change
the result. -/
theorem claim3_terminates (m : Model) :
    runPass (solve_missing_values m) = (solve_missing_values m, false) ∧
    ∀ n : Nat, solve_missing_values m = solveLoop (SOLVERS.length + 1 + n) m := by
  constructor
  · exact solveLoop_fix (SOLVERS.length + 1) m (unkCount_lt_fuel m)
  · intro n
    exact solveLoop_eq_of_lt (SOLVERS.length + 1) (SOLVERS.length + 1 + n) m
      (unkCount_lt_fuel m) (by omega)

/-! ## Solve/substitute round-trip (C4) -/

/-- Environment update: bind `v` to `t`. -/
def updEnv (env : String → Option ℚ) (v : String) (t : ℚ) : String → Option ℚ :=
  fun s => if s = v then some t else env s

theorem occurs_true_iff (v : String) (e : Expr) : occurs v e = true ↔ v ∈ e.freeVars := by
  simp [occurs, List.contains, List.elem_iff]

theorem occurs_false_iff (v : String) (e : Expr) : occurs v e = false ↔ v ∉ e.freeVars := by
  rw [← Bool.not_eq_true, not_iff_not]
  exact occurs_true_iff v e

theorem evalE_updEnv (env : String → Option ℚ) (v : String) (t : ℚ) (e : Expr)
    (h : occurs v e = false) : evalE (updEnv env v t) e = evalE env e := by
  rw [occurs_false_iff] at h
  induction e with
  | var s =>
    have hs : s ≠ v := by
      intro hsv; exact h (by simp [Expr.freeVars, hsv])
    simp [evalE, updEnv, hs]
  | num q => rfl
  | add a b iha ihb =>
    have ha : v ∉ a.freeVars := fun hx => h (by simp [Expr.freeVars, hx])
    have hb : v ∉ b.freeVars := fun hx => h (by simp [Expr.freeVars, hx])
    simp only [evalE, iha ha, ihb hb]
  | sub a b iha ihb =>
    have ha : v ∉ a.freeVars := fun hx => h (by simp [Expr.freeVars, hx])
    have hb : v ∉ b.freeVars := fun hx => h (by simp [Expr.freeVars, hx])
    simp only [evalE, iha ha, ihb hb]
  | mul a b iha ihb =>
    have ha : v ∉ a.freeVars := fun hx => h (by simp [Expr.freeVars, hx])
    have hb : v ∉ b.freeVars := fun hx => h (by simp [Expr.freeVars, hx])
    simp only [evalE, iha ha, ihb hb]
  | div a b iha ihb =>
    have ha : v ∉ a.freeVars := fun hx => h (by simp [Expr.freeVars, hx])
    have hb : v ∉ b.freeVars := fun hx => h (by simp [Expr.freeVars, hx])
    simp only [evalE, iha ha, ihb hb]

theorem evalE_some_of_freeVars (env : String → Option ℚ) (e : Expr) (r : ℚ)
    (h : evalE env e = some r) : ∀ s ∈ e.freeVars, (env s).isSome := by
  induction e generalizing r with
  | var s' =>
    intro s hs
    simp only [Expr.freeVars, List.mem_singleton] at hs
    subst hs
    simp [evalE] at h
    simp [h]
  | num q => intro s hs; simp [Expr.freeVars] at hs
  | add a b iha ihb =>
    intro s hs
    simp only [evalE] at h
    rcases hea : evalE env a with _ | x <;> rcases heb : evalE env b with _ | y <;>
      rw [hea, heb] at h <;> try cases h
    simp only [Expr.freeVars, List.mem_append] at hs
    rcases hs with hs | hs
    · exact iha x hea s hs
    · exact ihb y heb s hs
  | sub a b iha ihb =>
    intro s hs
    simp only [evalE] at h
    rcases hea : evalE env a with _ | x <;> rcases heb : evalE env b with _ | y <;>
      rw [hea, heb] at h <;> try cases h
    simp only [Expr.freeVars, List.mem_append] at hs
    rcases hs with hs | hs
    · exact iha x hea s hs
    · exact ihb y heb s hs
  | mul a b iha ihb =>
    intro s hs
    simp only [evalE] at h
    rcases hea : evalE env a with _ | x <;> rcases heb : evalE env b with _ | y <;>
      rw [hea, heb] at h <;> try cases h
    simp only [Expr.freeVars, List.mem_append] at hs
    rcases hs with hs | hs
    · exact iha x hea s hs
    · exact ihb y heb s hs
  | div a b iha ihb =>
    intro s hs
    simp only [evalE] at h
    rcases hea : evalE env a with _ | x <;> rcases heb : evalE env b with _ | y <;>
      rw [hea, heb] at h <;> try cases h
    simp only [Expr.freeVars, List.mem_append] at hs
    rcases hs with hs | hs
    · exact iha x hea s hs
    · exact ihb y heb s hs

theorem linFrac_some_of_freeVars (env : String → Option ℚ) (v : String) (e : Expr)
    (lf : ℚ × ℚ × ℚ × ℚ) (h : linFrac env v e = some lf) :
    ∀ s ∈ e.freeVars, s ≠ v → (env s).isSome := by
  induction e generalizing lf with
  | var s' =>
    intro s hs hsv
    simp only [Expr.freeVars, List.mem_singleton] at hs
    subst hs
    simp only [linFrac] at h
    rcases h1 : decide (s = v) with _ | _
    · simp only [decide_eq_false_iff_not] at h1
      simp only [h1, if_false] at h
      rcases henv : env s with _ | q
      · rw [henv] at h; cases h
      · simp [henv]
    · simp only [decide_eq_true_eq] at h1
      exact absurd h1 hsv
  | num q => intro s hs; simp [Expr.freeVars] at hs
  | add a b iha ihb =>
    intro s hs hsv
    simp only [Expr.freeVars, List.mem_append] at hs
    simp only [linFrac] at h
    cases hoa : occurs v a <;> cases hob : occurs v b <;> simp only [hoa, hob] at h
    · rcases he : evalE env (Expr.add a b) with _ | k
      · rw [he] at h; cases h
      · exact evalE_some_of_freeVars env (Expr.add a b) k he s
          (by simp only [Expr.freeVars, List.mem_append]; exact hs)
    · rcases hlb : linFrac env v b with _ | ⟨p, q, r, s0⟩ <;>
        rcases hea : evalE env a with _ | k <;> rw [hlb, hea] at h <;> try cases h
      rcases hs with hs | hs
      · exact evalE_some_of_freeVars env a k hea s hs
      · exact ihb (p, q, r, s0) hlb s hs hsv
    · rcases hla : linFrac env v a with _ | ⟨p, q, r, s0⟩ <;>
        rcases heb : evalE env b with _ | k <;> rw [hla, heb] at h <;> try cases h
      rcases hs with hs | hs
      · exact iha (p, q, r, s0) hla s hs hsv
      · exact evalE_some_of_freeVars env b k heb s hs
    · cases h
  | sub a b iha ihb =>
    intro s hs hsv
    simp only [Expr.freeVars, List.mem_append] at hs
    simp only [linFrac] at h
    cases hoa : occurs v a <;> cases hob : occurs v b <;> simp only [hoa, hob] at h
    · rcases he : evalE env (Expr.sub a b) with _ | k
      · rw [he] at h; cases h
      · exact evalE_some_of_freeVars env (Expr.sub a b) k he s
          (by simp only [Expr.freeVars, List.mem_append]; exact hs)
    · rcases hlb : linFrac env v b with _ | ⟨p, q, r, s0⟩ <;>
        rcases hea : evalE env a with _ | k <;> rw [hlb, hea] at h <;> try cases h
      rcases hs with hs | hs
      · exact evalE_some_of_freeVars env a k hea s hs
      · exact ihb (p, q, r, s0) hlb s hs hsv
    · rcases hla : linFrac env v a with _ | ⟨p, q, r, s0⟩ <;>
        rcases heb : evalE env b with _ | k <;> rw [hla, heb] at h <;> try cases h
      rcases hs with hs | hs
      · exact iha (p, q, r, s0) hla s hs hsv
      · exact evalE_some_of_freeVars env b k heb s hs
    · cases h
  | mul a b iha ihb =>
    intro s hs hsv
    simp only [Expr.freeVars, List.mem_append] at hs
    simp only [linFrac] at h
    cases hoa : occurs v a <;> cases hob : occurs v b <;> simp only [hoa, hob] at h
    · rcases he : evalE env (Expr.mul a b) with _ | k
      · rw [he] at h; cases h
      · exact evalE_some_of_freeVars env (Expr.mul a b) k he s
          (by simp only [Expr.freeVars, List.mem_append]; exact hs)
    · rcases hlb : linFrac env v b with _ | ⟨p, q, r, s0⟩ <;>
        rcases hea : evalE env a with _ | k <;> rw [hlb, hea] at h <;> try cases h
      rcases hs with hs | hs
      · exact evalE_some_of_freeVars env a k hea s hs
      · exact ihb (p, q, r, s0) hlb s hs hsv
    · rcases hla : linFrac env v a with _ | ⟨p, q, r, s0⟩ <;>
        rcases heb : evalE env b with _ | k <;> rw [hla, heb] at h <;> try cases h
      rcases hs with hs | hs
      · exact iha (p, q, r, s0) hla s hs hsv
      · exact evalE_some_of_freeVars env b k heb s hs
    · cases h
  | div a b iha ihb =>
    intro s hs hsv
    simp only [Expr.freeVars, List.mem_append] at hs
    simp only [linFrac] at h
    cases hoa : occurs v a <;> cases hob : occurs v b <;> simp only [hoa, hob] at h
    · rcases he : evalE env (Expr.div a b) with _ | k
      · rw [he] at h; cases h
      · exact evalE_some_of_freeVars env (Expr.div a b) k he s
          (by simp only [Expr.freeVars, List.mem_append]; exact hs)
    · rcases hlb : linFrac env v b with _ | ⟨p, q, r, s0⟩ <;>
        rcases hea : evalE env a with _ | k <;> rw [hlb, hea] at h <;> try cases h
      · rcases hs with hs | hs
        · exact evalE_some_of_freeVars env a k hea s hs
        · exact ihb (p, q, r, s0) hlb s hs hsv
    · rcases hla : linFrac env v a with _ | ⟨p, q, r, s0⟩ <;>
        rcases heb : evalE env b with _ | k <;> rw [hla, heb] at h <;> try cases h
      · rcases hs with hs | hs
        · exact iha (p, q, r, s0) hla s hs hsv
        · exact evalE_some_of_freeVars env b k heb s hs
    · cases h

/-- Correctness of the linear-fractional decomposition: under the
denominator side condition, the expression evaluates at `v := t` to the
Möbius value. -/
theorem linFrac_eval (env : String → Option ℚ) (v : String) (e : Expr) (a b c d : ℚ)
    (h : linFrac env v e = some (a, b, c, d)) (t : ℚ) (hd : c * t + d ≠ 0) :
    evalE (updEnv env v t) e = some ((a * t + b) / (c * t + d)) := by
  induction e generalizing a b c d with
  | var s' =>
    simp only [linFrac] at h
    by_cases h1 : s' = v
    · subst h1
      simp only [if_true] at h
      simp only [Option.some.injEq, Prod.mk.injEq] at h
      obtain ⟨h2, h3, h4, h5⟩ := h
      subst h2; subst h3; subst h4; subst h5
      simp [evalE, updEnv]
    · simp only [h1, if_false] at h
      rcases henv : env s' with _ | q
      · rw [henv] at h; cases h
      · rw [henv] at h
        simp only [Option.some.injEq, Prod.mk.injEq] at h
        obtain ⟨h2, h3, h4, h5⟩ := h
        subst h2; subst h3; subst h4; subst h5
        simp [evalE, updEnv, h1, henv]
  | num q0 =>
    simp only [linFrac, Option.some.injEq, Prod.mk.injEq] at h
    obtain ⟨h2, h3, h4, h5⟩ := h
    subst h2; subst h3; subst h4; subst h5
    simp [evalE]
  | add e1 e2 ih1 ih2 =>
    simp only [linFrac] at h
    cases ho1 : occurs v e1 <;> cases ho2 : occurs v e2 <;> simp only [ho1, ho2] at h
    · rcases he : evalE env (Expr.add e1 e2) with _ | k <;> rw [he] at h
      · cases h
      · simp only [Option.some.injEq, Prod.mk.injEq] at h
        obtain ⟨h2, h3, h4, h5⟩ := h
        subst h2; subst h3; subst h4; subst h5
        have hocc : occurs v (Expr.add e1 e2) = false := by
          rw [occurs_false_iff]
          simp only [Expr.freeVars, List.mem_append, not_or]
          exact ⟨(occurs_false_iff v e1).mp ho1, (occurs_false_iff v e2).mp ho2⟩
        rw [evalE_updEnv env v t _ hocc, he]
        norm_num
    · rcases hlb : linFrac env v e2 with _ | ⟨p, q, r, s0⟩ <;>
        rcases hea : evalE env e1 with _ | k <;> rw [hlb, hea] at h <;> cases h
      have hv2 := ih2 p q c d hlb hd
      have hv1 : evalE (updEnv env v t) e1 = some k := by
        rw [evalE_updEnv env v t e1 ho1]; exact hea
      simp only [evalE, hv1, hv2, Option.some.injEq]
      field_simp
      ring
    · rcases hla : linFrac env v e1 with _ | ⟨p, q, r, s0⟩ <;>
        rcases heb : evalE env e2 with _ | k <;> rw [hla, heb] at h <;> cases h
      have hv1 := ih1 p q c d hla hd
      have hv2 : evalE (updEnv env v t) e2 = some k := by
        rw [evalE_updEnv env v t e2 ho2]; exact heb
      simp only [evalE, hv1, hv2, Option.some.injEq]
      field_simp
      ring
    · cases h
  | sub e1 e2 ih1 ih2 =>
    simp only [linFrac] at h
    cases ho1 : occurs v e1 <;> cases ho2 : occurs v e2 <;> simp only [ho1, ho2] at h
    · rcases he : evalE env (Expr.sub e1 e2) with _ | k <;> rw [he] at h
      · cases h
      · simp only [Option.some.injEq, Prod.mk.injEq] at h
        obtain ⟨h2, h3, h4, h5⟩ := h
        subst h2; subst h3; subst h4; subst h5
        have hocc : occurs v (Expr.sub e1 e2) = false := by
          rw [occurs_false_iff]
          simp only [Expr.freeVars, List.mem_append, not_or]
          exact ⟨(occurs_false_iff v e1).mp ho1, (occurs_false_iff v e2).mp ho2⟩
        rw [evalE_updEnv env v t _ hocc, he]
        norm_num
    · rcases hlb : linFrac env v e2 with _ | ⟨p, q, r, s0⟩ <;>
        rcases hea : evalE env e1 with _ | k <;> rw [hlb, hea] at h <;> cases h
      have hv2 := ih2 p q c d hlb hd
      have hv1 : evalE (updEnv env v t) e1 = some k := by
        rw [evalE_updEnv env v t e1 ho1]; exact hea
      simp only [evalE, hv1, hv2, Option.some.injEq]
      field_simp
      ring
    · rcases hla : linFrac env v e1 with _ | ⟨p, q, r, s0⟩ <;>
        rcases heb : evalE env e2 with _ | k <;> rw [hla, heb] at h <;> cases h
      have hv1 := ih1 p q c d hla hd
      have hv2 : evalE (updEnv env v t) e2 = some k := by
        rw [evalE_updEnv env v t e2 ho2]; exact heb
      simp only [evalE, hv1, hv2, Option.some.injEq]
      field_simp
      ring
    · cases h
  | mul e1 e2 ih1 ih2 =>
    simp only [linFrac] at h
    cases ho1 : occurs v e1 <;> cases ho2 : occurs v e2 <;> simp only [ho1, ho2] at h
    · rcases he : evalE env (Expr.mul e1 e2) with _ | k <;> rw [he] at h
      · cases h
      · simp only [Option.some.injEq, Prod.mk.injEq] at h
        obtain ⟨h2, h3, h4, h5⟩ := h
        subst h2; subst h3; subst h4; subst h5
        have hocc : occurs v (Expr.mul e1 e2) = false := by
          rw [occurs_false_iff]
          simp only [Expr.freeVars, List.mem_append, not_or]
          exact ⟨(occurs_false_iff v e1).mp ho1, (occurs_false_iff v e2).mp ho2⟩
        rw [evalE_updEnv env v t _ hocc, he]
        norm_num
    · rcases hlb : linFrac env v e2 with _ | ⟨p, q, r, s0⟩ <;>
        rcases hea : evalE env e1 with _ | k <;> rw [hlb, hea] at h <;> cases h
      have hv2 := ih2 p q c d hlb hd
      have hv1 : evalE (updEnv env v t) e1 = some k := by
        rw [evalE_updEnv env v t e1 ho1]; exact hea
      simp only [evalE, hv1, hv2, Option.some.injEq]
      field_simp
      ring
    · rcases hla : linFrac env v e1 with _ | ⟨p, q, r, s0⟩ <;>
        rcases heb : evalE env e2 with _ | k <;> rw [hla, heb] at h <;> cases h
      have hv1 := ih1 p q c d hla hd
      have hv2 : evalE (updEnv env v t) e2 = some k := by
        rw [evalE_updEnv env v t e2 ho2]; exact heb
      simp only [evalE, hv1, hv2, Option.some.injEq]
      field_simp
      ring
    · cases h
  | div e1 e2 ih1 ih2 =>
    simp only [linFrac] at h
    cases ho1 : occurs v e1 <;> cases ho2 : occurs v e2 <;> simp only [ho1, ho2] at h
    · rcases he : evalE env (Expr.div e1 e2) with _ | k <;> rw [he] at h
      · cases h
      · simp only [Option.some.injEq, Prod.mk.injEq] at h
        obtain ⟨h2, h3, h4, h5⟩ := h
        subst h2; subst h3; subst h4; subst h5
        have hocc : occurs v (Expr.div e1 e2) = false := by
          rw [occurs_false_iff]
          simp only [Expr.freeVars, List.mem_append, not_or]
          exact ⟨(occurs_false_iff v e1).mp ho1, (occurs_false_iff v e2).mp ho2⟩
        rw [evalE_updEnv env v t _ hocc, he]
        norm_num
    · -- v occurs in the denominator e2 only
      rcases hlb : linFrac env v e2 with _ | ⟨p, q, r, s0⟩ <;>
        rcases hea : evalE env e1 with _ | k <;> rw [hlb, hea] at h <;> try cases h
      by_cases hr : r = 0
      · simp only [hr, if_true] at h
        by_cases hs0 : s0 = 0
        · simp [hs0] at h
        · simp only [hs0, if_false, Option.some.injEq, Prod.mk.injEq] at h
          obtain ⟨h2, h3, h4, h5⟩ := h
          subst h2; subst h3; subst h4; subst h5
          have hd2 : r * t + s0 ≠ 0 := by rw [hr]; simpa using hs0
          have hv2 := ih2 p q r s0 hlb hd2
          have hv1 : evalE (updEnv env v t) e1 = some k := by
            rw [evalE_updEnv env v t e1 ho1]; exact hea
          rw [hr] at hv2
          have hnum : p * t + q ≠ 0 := hd
          have hb0 : (p * t + q) / (0 * t + s0) ≠ 0 := by
            simp only [zero_mul, zero_add]
            exact div_ne_zero hnum hs0
          simp only [evalE, hv1, hv2, hb0, if_false, Option.some.injEq]
          simp only [zero_mul, zero_add]
          rw [div_div_eq_mul_div]
      · simp [hr] at h
    · -- v occurs in the numerator e1 only
      rcases hla : linFrac env v e1 with _ | ⟨p, q, r, s0⟩ <;>
        rcases heb : evalE env e2 with _ | k <;> rw [hla, heb] at h <;> try cases h
      by_cases hk : k = 0
      · simp [hk] at h
      · simp only [hk, if_false, Option.some.injEq, Prod.mk.injEq] at h
        obtain ⟨h2, h3, h4, h5⟩ := h
        subst h2; subst h3; subst h4; subst h5
        have hv1 := ih1 p q r s0 hla hd
        have hv2 : evalE (updEnv env v t) e2 = some k := by
          rw [evalE_updEnv env v t e2 ho2]; exact heb
        simp only [evalE, hv1, hv2, hk, if_false, Option.some.injEq]
        field_simp
        left
        ring
    · cases h

theorem mobius_correct (L a b c d t : ℚ) (h : mobiusSolve L a b c d = some t) :
    (a * t + b) / (c * t + d) = L ∧ c * t + d ≠ 0 := by
  unfold mobiusSolve at h
  by_cases h1 : a - L * c = 0
  · simp [h1] at h
  · simp only [h1, if_false] at h
    by_cases h2 : c * ((L * d - b) / (a - L * c)) + d = 0
    · simp [h2] at h
    · simp only [h2, if_false, Option.some.injEq] at h
      subst h
      refine ⟨?_, h2⟩
      rw [div_eq_iff h2]
      field_simp
      ring

/-- If no free symbol other than `v` is bound to `None`, extending the
model at `v` with an actual value keeps `noneBound` false. -/
theorem noneBound_aset_false (m : Model) (syms : List String) (v : String) (w : ℚ)
    (h : ∀ s ∈ syms, s ≠ v → alookup m s ≠ some none) :
    noneBound (aset m v (some w)) syms = false := by
  unfold noneBound
  rw [List.any_eq_false]
  intro s hs
  simp only [decide_eq_true_eq]
  by_cases hsv : s = v
  · subst hsv
    rw [alookup_aset]
    intro hcontra
    cases hcontra
  · rw [alookup_aset_ne m v s (some w) hsv]
    exact h s hs hsv

/-- **C4.**  Solve/substitute round-trip: if `solve_identity` returns a
value for variable `v` of an identity (given numbers for the other
variables), then `evaluate_identity` on the model extended with `v`
bound to that value yields a left-minus-right difference of exactly
zero. -/
theorem claim4_roundtrip (name : String) (lhs rhs : Expr) (knowns : Model) (v : String) (w : ℚ)
    (hid : alookup IDENTITIES name = some (lhs, rhs))
    (hs : solve_identity name knowns v = some w) :
    evaluate_identity name (aset knowns v (some w)) = some 0 := by
  unfold solve_identity at hs
  simp only [hid] at hs
  cases hbo : (occurs v lhs || occurs v rhs) with
  | false => rw [hbo] at hs; simp at hs
  | true =>
    rw [hbo] at hs
    simp only [if_true] at hs
    cases hnb : noneBound knowns (lhs.freeVars ++ rhs.freeVars) with
    | true => rw [hnb] at hs; simp at hs
    | false =>
      rw [hnb] at hs
      simp only [Bool.false_eq_true, if_false] at hs
      cases hlk : (alookup knowns v).isSome with
      | true => rw [hlk] at hs; simp at hs
      | false =>
        rw [hlk] at hs
        simp only [Bool.false_eq_true, if_false] at hs
        have henv : envOf (aset knowns v (some w)) = updEnv (envOf knowns) v w := by
          funext s
          by_cases hsv : s = v
          · subst hsv
            simp [envOf, mget, alookup_aset, updEnv]
          · simp [envOf, mget, alookup_aset_ne knowns v s (some w) hsv, updEnv, hsv]
        cases hol : occurs v lhs with
        | true =>
          cases hor : occurs v rhs with
          | true => rw [hol, hor] at hs; simp at hs
          | false =>
            rw [hol, hor] at hs
            rcases hL : evalE (envOf knowns) rhs with _ | L <;>
              rcases hLF : linFrac (envOf knowns) v lhs with _ | ⟨a, b, c, d⟩ <;>
              rw [hL, hLF] at hs <;> try cases hs
            obtain ⟨hval, hden⟩ := mobius_correct L a b c d w hs
            unfold evaluate_identity
            simp only [hid]
            have hnb2 : noneBound (aset knowns v (some w)) (lhs.freeVars ++ rhs.freeVars) = false := by
              apply noneBound_aset_false
              intro s hsm hsv hcontra
              have hisSome : (envOf knowns s).isSome := by
                rcases List.mem_append.mp hsm with hm | hm
                · exact linFrac_some_of_freeVars (envOf knowns) v lhs (a, b, c, d) hLF s hm hsv
                · exact evalE_some_of_freeVars (envOf knowns) rhs L hL s hm
              simp only [envOf, mget, hcontra] at hisSome
              simp at hisSome
            simp only [hnb2, Bool.false_eq_true, if_false]
            have hlhs : evalE (envOf (aset knowns v (some w))) lhs = some L := by
              rw [henv, linFrac_eval (envOf knowns) v lhs a b c d hLF w hden, hval]
            have hrhs : evalE (envOf (aset knowns v (some w))) rhs = some L := by
              rw [henv, evalE_updEnv (envOf knowns) v w rhs hor]
              exact hL
            simp [hlhs, hrhs]
        | false =>
          cases hor : occurs v rhs with
          | false => rw [hol, hor] at hbo; cases hbo
          | true =>
            rw [hol, hor] at hs
            rcases hL : evalE (envOf knowns) lhs with _ | L <;>
              rcases hLF : linFrac (envOf knowns) v rhs with _ | ⟨a, b, c, d⟩ <;>
              rw [hL, hLF] at hs <;> try cases hs
            obtain ⟨hval, hden⟩ := mobius_correct L a b c d w hs
            unfold evaluate_identity
            simp only [hid]
            have hnb2 : noneBound (aset knowns v (some w)) (lhs.freeVars ++ rhs.freeVars) = false := by
              apply noneBound_aset_false
              intro s hsm hsv hcontra
              have hisSome : (envOf knowns s).isSome := by
                rcases List.mem_append.mp hsm with hm | hm
                · exact evalE_some_of_freeVars (envOf knowns) lhs L hL s hm
                · exact linFrac_some_of_freeVars (envOf knowns) v rhs (a, b, c, d) hLF s hm hsv
              simp only [envOf, mget, hcontra] at hisSome
              simp at hisSome
            simp only [hnb2, Bool.false_eq_true, if_false]
            have hrhs : evalE (envOf (aset knowns v (some w))) rhs = some L := by
              rw [henv, linFrac_eval (envOf knowns) v rhs a b c d hLF w hden, hval]
            have hlhs : evalE (envOf (aset knowns v (some w))) lhs = some L := by
              rw [henv, evalE_updEnv (envOf knowns) v w lhs hol]
              exact hL
            simp [hlhs, hrhs]

/-- Witness for C4: solving `NOPAT_Identity` for `NOPAT` from
`OperatingIncome = 100`, `TaxRate = 1/4` yields 75, and substituting it
back makes the identity hold exactly. -/
theorem claim4_roundtrip_witness :
    solve_identity "NOPAT_Identity"
      [("OperatingIncome", some 100), ("TaxRate", some (1/4))] "NOPAT" = some 75 ∧
    evaluate_identity "NOPAT_Identity"
      (aset [("OperatingIncome", some 100), ("TaxRate", some (1/4))] "NOPAT" (some 75)) =
      some 0 := by
  have hsol : solve_identity "NOPAT_Identity"
      [("OperatingIncome", some 100), ("TaxRate", some (1/4))] "NOPAT" = some 75 := by
    simp [solve_identity, IDENTITIES, alookup, noneBound, occurs, Expr.freeVars, envOf,
      mget, evalE, linFrac, mobiusSolve]
    norm_num
  exact ⟨hsol,
    claim4_roundtrip "NOPAT_Identity" (.var "NOPAT")
      (.mul (.var "OperatingIncome") (.sub (.num 1) (.var "TaxRate")))
      [("OperatingIncome", some 100), ("TaxRate", some (1/4))] "NOPAT" 75 rfl hsol⟩

/-! ## Concept canonicalizer (`src/xbrl/concept_resolver.py`)

String primitives are modelled on `String.data` character lists so that
they compute by kernel reduction.  `str.lower()`/`str.upper()` act per
character (the alias corpus is ASCII).  The embedding-similarity stage
is modelled as unavailable (`sentence_transformers` not installed):
`embed` raises `ImportError`, stage 3 of `resolve` swallows it, and in
`resolve_to_fact` every `embedding_similarity` call yields `sim = 0.0`
through its local `try/except`. -/

/-- `str.lower()` (per-character; ASCII corpus). -/
def lowerStr (s : String) : String := ⟨s.data.map Char.toLower⟩

/-- `str.upper()` (per-character; ASCII corpus). -/
def upperStr (s : String) : String := ⟨s.data.map Char.toUpper⟩

/-- Python `str` whitespace for `.strip()`/`.split()`. -/
def isPyWs (c : Char) : Bool :=
  c = ' ' || c = '\t' || c = '\n' || c = '\x0d' || c = '\x0b' || c = '\x0c'

/-- `str.strip()`. -/
def trimStr (s : String) : String :=
  ⟨((s.data.dropWhile isPyWs).reverse.dropWhile isPyWs).reverse⟩

/-- `str.split()` with no argument: split on whitespace runs, no empty
tokens. -/
def splitWsAux : List Char → List Char → List String
  | [], [] => []
  | [], acc => [⟨acc.reverse⟩]
  | c :: rest, acc =>
    if isPyWs c then
      (if acc = [] then splitWsAux rest [] else ⟨acc.reverse⟩ :: splitWsAux rest [])
    else splitWsAux rest (c :: acc)

def pySplitWs (s : String) : List String := splitWsAux s.data []

/-- The `CANONICAL_CLUSTERS` table, verbatim. -/
def CANONICAL_CLUSTERS : List (String × List String) :=
  [("Revenue",
    ["RevenueFromContractWithCustomer", "SalesRevenueNet", "OperatingRevenue",
     "TotalRevenue", "Revenues", "us-gaap:RevenueFromContractWithCustomer",
     "ifrs-full:Revenue"]),
   ("CostOfRevenue",
    ["CostOfRevenue", "CostOfGoodsSold", "CostOfGoodsAndServicesSold",
     "CostOfProductsSold", "COGS", "us-gaap:CostOfRevenue", "us-gaap:CostOfGoodsSold"]),
   ("OperatingIncome",
    ["OperatingIncome", "OperatingProfit", "IncomeFromOperations", "OperatingLoss",
     "us-gaap:OperatingIncomeLoss", "EBIT", "EarningsBeforeInterestAndTaxes",
     "EarningsBeforeInterestTax", "EarningsBeforeInterestAndTax", "OperatingEarnings",
     "OperatingEarningsBeforeInterestAndTaxes", "IncomeBeforeInterestAndTaxes",
     "IncomeBeforeInterestTax",
     "us-gaap:IncomeLossFromContinuingOperationsBeforeIncomeTaxesExtraordinaryItemsNoncontrollingInterest",
     "us-gaap:IncomeLossFromContinuingOperationsBeforeIncomeTaxes"]),
   ("NetIncome",
    ["NetIncome", "NetIncomeLoss", "ProfitLoss", "NetEarnings", "us-gaap:NetIncomeLoss",
     "ifrs-full:ProfitLoss"]),
   ("R&D",
    ["ResearchAndDevelopmentExpense", "ResearchAndDevelopment", "RDExpense",
     "us-gaap:ResearchAndDevelopmentExpense"]),
   ("SalesMarketing",
    ["SellingAndMarketingExpense", "MarketingExpense", "SalesAndMarketing",
     "us-gaap:SellingAndMarketingExpense"]),
   ("GandA",
    ["SellingGeneralAndAdministrative", "GeneralAndAdministrative", "SG&A",
     "us-gaap:SellingGeneralAndAdministrativeExpense"]),
   ("PPE",
    ["PropertyPlantAndEquipmentNet", "PropertyPlantEquipment", "FixedAssetsNet",
     "us-gaap:PropertyPlantAndEquipmentNet"]),
   ("Goodwill", ["Goodwill", "us-gaap:Goodwill", "ifrs-full:Goodwill"]),
   ("Intangibles",
    ["IntangibleAssetsNetExcludingGoodwill", "IntangibleAssetsNet", "IntangibleAssets",
     "us-gaap:IntangibleAssetsNetExcludingGoodwill"]),
   ("Cash",
    ["CashAndCashEquivalents", "CashCashEquivalentsAndShortTermInvestments",
     "CashAndShortTermInvestments", "us-gaap:CashAndCashEquivalentsAtCarryingValue"]),
   ("SharesOutstanding",
    ["WeightedAverageNumberOfSharesOutstandingBasic", "WeightedAverageSharesOutstanding",
     "CommonStockSharesOutstanding"])]

/-- `CANONICAL_LOOKUP`: flattened alias → canonical map, in iteration
order (all aliases are distinct, so first-match lookup agrees with the
Python dict comprehension). -/
def CANONICAL_LOOKUP : List (String × String) :=
  CANONICAL_CLUSTERS.flatMap fun p => p.2.map fun a => (a, p.1)

/-- `strip_prefix`: remove a leading `us-gaap:` or `ifrs-full:`
(case-insensitive; the regex is anchored at the start, so at most one
removal happens). -/
def stripNs (s : String) : String :=
  if "us-gaap:".data.isPrefixOf (lowerStr s).data then ⟨s.data.drop 8⟩
  else if "ifrs-full:".data.isPrefixOf (lowerStr s).data then ⟨s.data.drop 10⟩
  else s

/-- Token-overlap numerator of `_simple_similarity`:
`len(set(a.split()) & set(b.split()))` on the lowered strings. -/
def simOverlap (a b : String) : Nat :=
  (((pySplitWs (lowerStr a)).dedup).filter
    (fun t => ((pySplitWs (lowerStr b)).dedup).contains t)).length

/-- Denominator of `_simple_similarity`: `max(len(a.split()), 1)`. -/
def simDenom (a : String) : Nat := max (pySplitWs (lowerStr a)).length 1

/-- `_simple_similarity(a, b)`. -/
def simpleSimilarity (a b : String) : ℚ :=
  if lowerStr a = lowerStr b then 1
  else (simOverlap a b : ℚ) / (simDenom a : ℚ)

/-- One step of the stage-2 best-score loop of `resolve`
(strict improvement, table order). -/
def scoreStep (base : String) (acc : Option String × ℚ) (p : String × String) :
    Option String × ℚ :=
  if simpleSimilarity base p.1 > acc.2 then (some p.2, simpleSimilarity base p.1) else acc

/-- Stage 2 of `resolve`: best (canonical, score) over the alias table,
starting from `(None, 0)`. -/
def bestAlias (base : String) : Option String × ℚ :=
  CANONICAL_LOOKUP.foldl (scoreStep base) (none, 0)

/-- `resolve(concept)` with the embedding backend unavailable (stage 3
raises `ImportError`, which the `except` swallows): exact alias match on
the stripped input, then the token-overlap stage with threshold 0.6,
then fall back to the stripped name.  When the threshold is met the
loop's `best` is necessarily set, so `getD base` is never the fallback. -/
def resolve (concept : String) : String :=
  let raw := trimStr concept
  let base := stripNs raw
  match alookup CANONICAL_LOOKUP raw with
  | some c => c
  | none =>
    match alookup CANONICAL_LOOKUP base with
    | some c => c
    | none =>
      if (bestAlias base).2 ≥ 3 / 5 then (bestAlias base).1.getD base else base

/-! ## Canonicalizer lemmas and C6 -/

theorem simDenom_pos (a : String) : 0 < simDenom a :=
  lt_of_lt_of_le Nat.one_pos (le_max_right _ _)

theorem simpleSimilarity_le_one (a b : String) : simpleSimilarity a b ≤ 1 := by
  unfold simpleSimilarity
  split
  · exact le_refl 1
  · rw [div_le_one (by exact_mod_cast simDenom_pos a)]
    have h1 : simOverlap a b ≤ simDenom a := by
      unfold simOverlap simDenom
      calc (((pySplitWs (lowerStr a)).dedup).filter
              (fun t => ((pySplitWs (lowerStr b)).dedup).contains t)).length
          ≤ ((pySplitWs (lowerStr a)).dedup).length := List.length_filter_le _ _
        _ ≤ (pySplitWs (lowerStr a)).length := (List.dedup_sublist _).length_le
        _ ≤ max (pySplitWs (lowerStr a)).length 1 := le_max_left _ _
    exact_mod_cast h1

theorem simpleSimilarity_lt_threshold (a b : String)
    (h1 : lowerStr a ≠ lowerStr b) (h2 : 5 * simOverlap a b < 3 * simDenom a) :
    simpleSimilarity a b < 3 / 5 := by
  unfold simpleSimilarity
  rw [if_neg h1]
  rw [div_lt_div_iff₀ (by exact_mod_cast simDenom_pos a) (by norm_num : (0:ℚ) < 5)]
  have h3 : (simOverlap a b : ℚ) * 5 = ((5 * simOverlap a b : Nat) : ℚ) := by
    push_cast; ring
  have h4 : (3:ℚ) * (simDenom a : ℚ) = ((3 * simDenom a : Nat) : ℚ) := by
    push_cast; ring
  rw [h3, h4]
  exact_mod_cast h2

theorem simpleSimilarity_eq_zero (a b : String)
    (h1 : lowerStr a ≠ lowerStr b) (h2 : simOverlap a b = 0) :
    simpleSimilarity a b = 0 := by
  unfold simpleSimilarity
  rw [if_neg h1, h2]
  simp

theorem simpleSimilarity_eq_one (a b : String) (h : lowerStr a = lowerStr b) :
    simpleSimilarity a b = 1 := by
  unfold simpleSimilarity
  rw [if_pos h]

/-- The best-score loop never moves off an accumulator that already
dominates every remaining score. -/
theorem foldl_scoreStep_stable (base : String) (acc : Option String × ℚ)
    (l : List (String × String))
    (h : ∀ p ∈ l, simpleSimilarity base p.1 ≤ acc.2) :
    List.foldl (scoreStep base) acc l = acc := by
  induction l with
  | nil => rfl
  | cons p rest ih =>
    have hp := h p (List.mem_cons_self p rest)
    have hstep : scoreStep base acc p = acc := by
      unfold scoreStep
      rw [if_neg (not_lt.mpr hp)]
    simp only [List.foldl, hstep]
    exact ih fun q hq => h q (List.mem_cons_of_mem p hq)

/-- The best-score loop preserves a strict upper bound on the score. -/
theorem foldl_scoreStep_bound (base : String) (c : ℚ) (acc : Option String × ℚ)
    (l : List (String × String)) (hacc : acc.2 < c)
    (h : ∀ p ∈ l, simpleSimilarity base p.1 < c) :
    (List.foldl (scoreStep base) acc l).2 < c := by
  induction l generalizing acc with
  | nil => exact hacc
  | cons p rest ih =>
    have hp := h p (List.mem_cons_self p rest)
    simp only [List.foldl]
    by_cases hgt : simpleSimilarity base p.1 > acc.2
    · have hstep : scoreStep base acc p = (some p.2, simpleSimilarity base p.1) := by
        unfold scoreStep
        rw [if_pos hgt]
      rw [hstep]
      exact ih (some p.2, simpleSimilarity base p.1) hp
        (fun q hq => h q (List.mem_cons_of_mem p hq))
    · have hstep : scoreStep base acc p = acc := by
        unfold scoreStep
        rw [if_neg hgt]
      rw [hstep]
      exact ih acc hacc (fun q hq => h q (List.mem_cons_of_mem p hq))

/-- **C6 (counterexample).**  `"revenues"` appears in no alias list, the
embedding stage is disabled, yet `resolve` does not return it unchanged:
the token-overlap stage matches the alias `"Revenues"`
case-insensitively and returns the canonical concept `"Revenue"`. -/
theorem claim6_counterexample :
    resolve "revenues" = "Revenue" ∧
    "revenues" ∉ CANONICAL_CLUSTERS.flatMap Prod.snd ∧
    "Revenue" ≠ "revenues" := by
  refine ⟨?_, by decide, by decide⟩
  have e1 : simpleSimilarity "revenues" "RevenueFromContractWithCustomer" = 0 :=
    simpleSimilarity_eq_zero _ _ (by decide) (by decide)
  have e2 : simpleSimilarity "revenues" "SalesRevenueNet" = 0 :=
    simpleSimilarity_eq_zero _ _ (by decide) (by decide)
  have e3 : simpleSimilarity "revenues" "OperatingRevenue" = 0 :=
    simpleSimilarity_eq_zero _ _ (by decide) (by decide)
  have e4 : simpleSimilarity "revenues" "TotalRevenue" = 0 :=
    simpleSimilarity_eq_zero _ _ (by decide) (by decide)
  have e5 : simpleSimilarity "revenues" "Revenues" = 1 :=
    simpleSimilarity_eq_one _ _ (by decide)
  have htake : CANONICAL_LOOKUP.take 5 =
      [("RevenueFromContractWithCustomer", "Revenue"), ("SalesRevenueNet", "Revenue"),
       ("OperatingRevenue", "Revenue"), ("TotalRevenue", "Revenue"),
       ("Revenues", "Revenue")] := by decide
  have hsplit : CANONICAL_LOOKUP = CANONICAL_LOOKUP.take 5 ++ CANONICAL_LOOKUP.drop 5 :=
    (List.take_append_drop 5 CANONICAL_LOOKUP).symm
  have hhead : List.foldl (scoreStep "revenues") (none, 0) (CANONICAL_LOOKUP.take 5) =
      (some "Revenue", 1) := by
    rw [htake]
    simp only [List.foldl, scoreStep, e1, e2, e3, e4, e5]
    norm_num
  have hba : bestAlias "revenues" = (some "Revenue", 1) := by
    unfold bestAlias
    rw [hsplit, List.foldl_append, hhead]
    exact foldl_scoreStep_stable "revenues" (some "Revenue", 1) _
      (fun p _ => simpleSimilarity_le_one "revenues" p.1)
  have htrim : trimStr "revenues" = "revenues" := by decide
  have hstrip : stripNs "revenues" = "revenues" := by decide
  have h1 : alookup CANONICAL_LOOKUP "revenues" = none := by decide
  simp only [resolve, htrim, hstrip, h1, hba]
  norm_num

/-- **C6 (amended).**  For an input whose stripped form is not an exact
alias and scores below the 0.6 token-overlap threshold against every
alias (in particular, is not case-insensitively equal to any alias),
`resolve` with the embedding stage disabled returns the input with
known namespace prefixes stripped (and surrounding whitespace trimmed),
unchanged. -/
theorem claim6_amended (x : String)
    (h1 : alookup CANONICAL_LOOKUP (trimStr x) = none)
    (h2 : alookup CANONICAL_LOOKUP (stripNs (trimStr x)) = none)
    (h3 : ∀ p ∈ CANONICAL_LOOKUP, simpleSimilarity (stripNs (trimStr x)) p.1 < 3 / 5) :
    resolve x = stripNs (trimStr x) := by
  simp only [resolve, h1, h2]
  have hlt : (bestAlias (stripNs (trimStr x))).2 < 3 / 5 := by
    unfold bestAlias
    exact foldl_scoreStep_bound _ _ _ _ (by norm_num) h3
  rw [if_neg (not_le.mpr hlt)]

/-- Witness for C6 (amended) at `"XyzzyPlugh"`. -/
theorem claim6_amended_witness : resolve "XyzzyPlugh" = "XyzzyPlugh" := by
  have hall : CANONICAL_LOOKUP.all
      (fun p => !(lowerStr "XyzzyPlugh" == lowerStr p.1) &&
        decide (5 * simOverlap "XyzzyPlugh" p.1 < 3 * simDenom "XyzzyPlugh")) = true := by
    decide
  have h3 : ∀ p ∈ CANONICAL_LOOKUP, simpleSimilarity "XyzzyPlugh" p.1 < 3 / 5 := by
    intro p hp
    have hb := List.all_eq_true.mp hall p hp
    rw [Bool.and_eq_true] at hb
    apply simpleSimilarity_lt_threshold
    · intro hc
      rw [hc] at hb
      simp at hb
    · exact of_decide_eq_true hb.2
  have hres := claim6_amended "XyzzyPlugh" (by decide) (by decide)
    (by have hts : stripNs (trimStr "XyzzyPlugh") = "XyzzyPlugh" := by decide
        rw [hts]; exact h3)
  have hts : stripNs (trimStr "XyzzyPlugh") = "XyzzyPlugh" := by decide
  rw [hres, hts]

/-! ## Stable sort

Python's `sorted`/`list.sort` is a stable sort by a total preorder key;
a stable sort's output is uniquely determined by the key order plus
stability, so a stable insertion sort is an exact model.  (Core's
`List.mergeSort` is defined by well-founded recursion and does not
reduce in the kernel, so concrete runs could not be evaluated with it.) -/

/-- Insert `x` after every leading element `y` with `le y x` — the
stable position for an element arriving later in the input. -/
def sInsert {α : Type} (le : α → α → Bool) (x : α) : List α → List α
  | [] => [x]
  | y :: ys => if le y x then y :: sInsert le x ys else x :: y :: ys

/-- Stable sort: fold the input in order, inserting each element after
existing equal ones. -/
def sSort {α : Type} (le : α → α → Bool) (l : List α) : List α :=
  l.foldl (fun acc x => sInsert le x acc) []

theorem sInsert_perm {α : Type} (le : α → α → Bool) (x : α) (l : List α) :
    (sInsert le x l).Perm (x :: l) := by
  induction l with
  | nil => exact List.Perm.refl _
  | cons y ys ih =>
    unfold sInsert
    by_cases h : le y x = true
    · rw [if_pos h]
      exact (ih.cons y).trans (List.Perm.swap x y ys)
    · rw [if_neg h]

theorem sSort_perm {α : Type} (le : α → α → Bool) (l : List α) : (sSort le l).Perm l := by
  suffices h : ∀ (acc : List α), (l.foldl (fun acc x => sInsert le x acc) acc).Perm
      (l.reverse ++ acc) by
    have h2 := h []
    simp only [List.append_nil] at h2
    unfold sSort
    exact h2.trans (List.reverse_perm l)
  induction l with
  | nil => intro acc; simp
  | cons x xs ih =>
    intro acc
    simp only [List.foldl, List.reverse_cons, List.append_assoc, List.singleton_append]
    exact (ih (sInsert le x acc)).trans
      (List.Perm.append_left xs.reverse (sInsert_perm le x acc))

theorem sInsert_sorted {α : Type} (le : α → α → Bool)
    (htrans : ∀ a b c, le a b = true → le b c = true → le a c = true)
    (htotal : ∀ a b, le a b = true ∨ le b a = true)
    (x : α) (l : List α) (hl : l.Pairwise (fun a b => le a b = true)) :
    (sInsert le x l).Pairwise (fun a b => le a b = true) := by
  induction l with
  | nil => simp [sInsert]
  | cons y ys ih =>
    rcases List.pairwise_cons.mp hl with ⟨hy, hys⟩
    unfold sInsert
    by_cases h : le y x = true
    · rw [if_pos h]
      refine List.pairwise_cons.mpr ⟨?_, ih hys⟩
      intro z hz
      rcases List.mem_cons.mp ((sInsert_perm le x ys).mem_iff.mp hz) with hz' | hz'
      · rw [hz']; exact h
      · exact hy z hz'
    · rw [if_neg h]
      have hxy : le x y = true := by
        rcases htotal x y with h1 | h1
        · exact h1
        · exact absurd h1 h
      refine List.pairwise_cons.mpr ⟨?_, hl⟩
      intro z hz
      rcases List.mem_cons.mp hz with hz' | hz'
      · rw [hz']; exact hxy
      · exact htrans x y z hxy (hy z hz')

theorem sSort_sorted {α : Type} (le : α → α → Bool)
    (htrans : ∀ a b c, le a b = true → le b c = true → le a c = true)
    (htotal : ∀ a b, le a b = true ∨ le b a = true)
    (l : List α) : (sSort le l).Pairwise (fun a b => le a b = true) := by
  suffices h : ∀ (acc : List α), acc.Pairwise (fun a b => le a b = true) →
      (l.foldl (fun acc x => sInsert le x acc) acc).Pairwise (fun a b => le a b = true) by
    exact h [] (List.Pairwise.nil)
  induction l with
  | nil => intro acc hacc; exact hacc
  | cons x xs ih =>
    intro acc hacc
    simp only [List.foldl]
    exact ih (sInsert le x acc) (sInsert_sorted le htrans htotal x acc hacc)

theorem sSort_mem {α : Type} (le : α → α → Bool) (l : List α) (x : α) :
    x ∈ sSort le l ↔ x ∈ l :=
  (sSort_perm le l).mem_iff

/-! ## Filing-specific resolver (`resolve_to_fact`) and fact extraction
(`src/xbrl/fact_extractor.py`)

A fact record is modelled post-parse: `value` is the outcome of
`float(f["value"])` (`none` when the raw text does not parse), and
`endYear` is the outcome of `_extract_end_date_year(f)` (the year of the
`endDate` of the fact's context in the instance document, `none` when
absent or unparsable). -/

structure XFact where
  name : Option String
  tag : Option String
  value : Option ℚ
  endYear : Option Int
deriving DecidableEq

/-- Python `a or b` on optional strings (empty string is falsy). -/
def pythonOrStr (a b : Option String) : Option String :=
  match a with
  | some s => if s = "" then b else some s
  | none => b

/-- Whether `needle` occurs as a contiguous run in `hay`. -/
def subAt : List Char → List Char → Bool
  | needle, [] => needle.isEmpty
  | needle, c :: rest => needle.isPrefixOf (c :: rest) || subAt needle rest

/-- `"sub" in t` — contiguous substring test. -/
def hasSub (t sub : String) : Bool := subAt sub.data t.data

/-- `classify_concept(text)`. -/
def classify_concept (text : String) : String :=
  let t := lowerStr text
  if hasSub t "tax" then "Tax"
  else if hasSub t "revenue" || hasSub t "sales" then "Revenue"
  else if hasSub t "cost of" || hasSub t "cogs" then "COGS"
  else if hasSub t "operating" || hasSub t "ebit" then "Operating"
  else if hasSub t "interest" || hasSub t "debt" then "Financing"
  else if hasSub t "share" || hasSub t "eps" then "EPS"
  else if hasSub t "income" || hasSub t "loss" || hasSub t "profit" || hasSub t "earnings"
    then "Operating"
  else "Other"

def isUpperA (c : Char) : Bool := 'A' ≤ c && c ≤ 'Z'
def isLowerA (c : Char) : Bool := 'a' ≤ c && c ≤ 'z'

/-- Scanner for `re.findall(r'[A-Z]?[a-z]+|[A-Z]+(?=[A-Z]|$)', text)`:
leftmost match with the usual alternation/backtracking semantics, one
character of progress on failure.  Fuel is the remaining length, enough
because every step consumes at least one character. -/
def camelScan : Nat → List Char → List String
  | 0, _ => []
  | _, [] => []
  | fuel + 1, c :: rest =>
    if isUpperA c then
      match rest with
      | [] => [⟨[c]⟩]
      | d :: _ =>
        if isLowerA d then
          let low := rest.takeWhile isLowerA
          ⟨c :: low⟩ :: camelScan fuel (rest.drop low.length)
        else if isUpperA d then
          let run := (c :: rest).takeWhile isUpperA
          match (c :: rest).drop run.length with
          | [] => [⟨run⟩]
          | _ :: _ => ⟨run.dropLast⟩ :: camelScan fuel ((c :: rest).drop (run.length - 1))
        else camelScan fuel rest
    else if isLowerA c then
      let low := (c :: rest).takeWhile isLowerA
      ⟨low⟩ :: camelScan fuel ((c :: rest).drop low.length)
    else camelScan fuel rest

/-- `tokenize(text)`: the (set of) CamelCase/acronym tokens. -/
def tokenize (s : String) : List String := (camelScan (s.data.length + 1) s.data).dedup

/-- `keyword_overlap_score(query, fact_name)`. -/
def keyword_overlap_score (query fact_name : String) : ℚ :=
  let q_tokens := ((tokenize query).map lowerStr).dedup
  let f_tokens := ((tokenize fact_name).map lowerStr).dedup
  if q_tokens = [] then 0
  else ((q_tokens.filter (fun t => f_tokens.contains t)).length : ℚ) / (q_tokens.length : ℚ)

/-- The distinct fact names of the filing.  Python iterates a `set`,
whose order is arbitrary; it is modelled as a deduplicated list, and
the claims below do not depend on the iteration order. -/
def uniqueNames (all_facts : List XFact) : List String :=
  (all_facts.filterMap fun f =>
    match pythonOrStr f.name f.tag with
    | some s => if s = "" then none else some s
    | none => none).dedup

/-- The hybrid score of `resolve_to_fact` for one candidate name, with
the embedding backend unavailable (`sim = 0.0` via its local
`try/except`). -/
def rtfScore (query_base : String) (name : String) : ℚ :=
  let name_base := stripNs name
  let query_cat := classify_concept query_base
  let fact_cat := classify_concept name_base
  let q_low := lowerStr query_base
  let n_low := lowerStr name_base
  let sim : ℚ := 0
  let overlap := keyword_overlap_score query_base name_base
  let cat_score : ℚ :=
    if query_cat = fact_cat ∧ query_cat ≠ "Other" then 15 / 100
    else if query_cat = "Operating" ∧ fact_cat = "Tax" then -(15 / 100)
    else if query_cat = "Tax" ∧ fact_cat = "Operating" then -(15 / 100)
    else 0
  let penalty : ℚ :=
    (if hasSub q_low "operat" ∧ hasSub n_low "tax" then 20 / 100 else 0) +
    (if hasSub q_low "tax" ∧ hasSub n_low "operat" then 20 / 100 else 0) +
    (if hasSub q_low "revenue" ∧ hasSub n_low "net income" then 10 / 100 else 0) +
    (if hasSub q_low "net income" ∧ hasSub n_low "revenue" then 10 / 100 else 0)
  60 / 100 * sim + 25 / 100 * overlap + cat_score - penalty

/-- The best-scoring candidate: `best_score` starts at `-inf`, so the
first candidate always becomes `best`; later ones need a strict
improvement. -/
def rtfFold (qb : String) (l : List String) : Option (String × ℚ) :=
  l.foldl
    (fun acc n =>
      match acc with
      | none => some (n, rtfScore qb n)
      | some (b, bs) => if rtfScore qb n > bs then some (n, rtfScore qb n) else some (b, bs))
    none

/-- `resolve_to_fact(query, all_facts)` with the embedding backend
unavailable: accept the best candidate iff its score reaches 0.40. -/
def resolve_to_fact (query : String) (all_facts : List XFact) : Option String :=
  let query_base := stripNs (trimStr query)
  let names := uniqueNames all_facts
  if names = [] then none
  else
    match rtfFold query_base names with
    | some (b, bs) => if bs ≥ 40 / 100 then some b else none
    | none => none

/-- The matched, dated facts of `build_concept_series` (stage 1: alias
match on each fact's truthy `name`; stage 2, only when stage 1 is empty:
the facts whose `name or tag` equals the `resolve_to_fact` winner),
paired with their end-year, in input order. -/
def rawMatches (concept : String) (all_facts : List XFact) : List (Int × XFact) :=
  let canonical := resolve concept
  let stage1 := all_facts.filterMap fun f =>
    match f.name with
    | some s =>
      if s ≠ "" ∧ resolve s = canonical then f.endYear.map (fun y => (y, f)) else none
    | none => none
  if stage1 = [] then
    match resolve_to_fact concept all_facts with
    | some best =>
      if best = "" then []
      else all_facts.filterMap fun f =>
        if pythonOrStr f.name f.tag = some best then f.endYear.map (fun y => (y, f)) else none
    | none => []
  else stage1

/-- The dedup dict of `build_concept_series`: `dedup[y] = float(value)`
in input order, skipping unparsable values. -/
def seriesDedup (raw : List (Int × XFact)) : List (Int × ℚ) :=
  raw.foldl
    (fun d p =>
      match p.2.value with
      | some v => aset d p.1 v
      | none => d) []

/-- `build_concept_series(concept, all_facts)`: dedup by year with
last-parsable-write-wins, then sort ascending by year. -/
def build_concept_series (concept : String) (all_facts : List XFact) : List (Int × ℚ) :=
  sSort (fun a b => decide (a.1 ≤ b.1)) (seriesDedup (rawMatches concept all_facts))

/-- Specification-side characterization: the value of the last fact (in
input order) among the matched facts with end-year `y` whose raw value
parses as a number. -/
def lastParsedValue : List (Int × XFact) → Int → Option ℚ
  | [], _ => none
  | p :: rest, y =>
    match lastParsedValue rest y with
    | some v => some v
    | none => if p.1 = y then p.2.value else none

/-- The matched facts of `get_concept_value` (same two-stage matching as
`build_concept_series`, but without requiring a date). -/
def gcvMatches (concept : String) (all_facts : List XFact) : List XFact :=
  let canonical := resolve concept
  let stage1 := all_facts.filter fun f =>
    match f.name with
    | some s => decide (s ≠ "") && decide (resolve s = canonical)
    | none => false
  if stage1 = [] then
    match resolve_to_fact concept all_facts with
    | some best =>
      if best = "" then []
      else all_facts.filter fun f => decide (pythonOrStr f.name f.tag = some best)
    | none => []
  else stage1

/-- The nearest-year ordering used by `get_concept_value`'s fallback:
stable sort by `abs(year - target)`. -/
def nearestSort (dated : List (Int × XFact)) (yr : Int) : List (Int × XFact) :=
  sSort (fun a b => decide ((a.1 - yr).natAbs ≤ (b.1 - yr).natAbs)) dated

/-- The dated matched facts `(end_year, fact)` of `get_concept_value`,
in input order. -/
def gcvDated (concept : String) (all_facts : List XFact) : List (Int × XFact) :=
  (gcvMatches concept all_facts).filterMap fun f => f.endYear.map fun y => (y, f)

/-- `get_concept_value(concept, all_facts, year)`: exact-year match
first (last such fact, parse attempt), then the nearest-year fact (one
parse attempt on the first of the sorted list), then the latest-year
fact (the in-place nearest sort is re-sorted by year, as in the
source), else `None`. -/
def get_concept_value (concept : String) (all_facts : List XFact) (year : Option Int) :
    Option ℚ :=
  let mfacts := gcvMatches concept all_facts
  if mfacts = [] then none
  else
    let dated := gcvDated concept all_facts
    let exactAttempt : Option ℚ :=
      match year with
      | some yr =>
        match ((dated.filter fun p => p.1 = yr).map Prod.snd).getLast? with
        | some f => f.value
        | none => none
      | none => none
    match exactAttempt with
    | some v => some v
    | none =>
      let dated2 :=
        match year with
        | some yr => if dated.isEmpty then dated else nearestSort dated yr
        | none => dated
      let nearestAttempt : Option ℚ :=
        match year with
        | some _ => if dated.isEmpty then none else dated2.head?.bind fun p => p.2.value
        | none => none
      match nearestAttempt with
      | some v => some v
      | none =>
        match (sSort (fun a b => decide (a.1 ≤ b.1)) dated2).getLast? with
        | some p => p.2.value
        | none => none

/-! ## Series lemmas and C5 -/

theorem mem_map_fst_aset {κ β : Type} [DecidableEq κ] (d : List (κ × β)) (k x : κ) (v : β) :
    x ∈ (aset d k v).map Prod.fst ↔ x ∈ d.map Prod.fst ∨ x = k := by
  induction d with
  | nil => simp [aset]
  | cons p rest ih =>
    by_cases hp : p.1 = k
    · simp [aset, hp]
      tauto
    · simp [aset, hp, ih]
      tauto

theorem nodup_map_fst_aset {κ β : Type} [DecidableEq κ] (d : List (κ × β)) (k : κ) (v : β)
    (h : (d.map Prod.fst).Nodup) : ((aset d k v).map Prod.fst).Nodup := by
  induction d with
  | nil => simp [aset]
  | cons p rest ih =>
    simp only [List.map_cons, List.nodup_cons] at h
    by_cases hp : p.1 = k
    · simp only [aset, hp, if_true, List.map_cons, List.nodup_cons]
      exact ⟨hp ▸ h.1, h.2⟩
    · simp only [aset, hp, if_false, List.map_cons, List.nodup_cons]
      refine ⟨?_, ih h.2⟩
      intro hc
      rcases (mem_map_fst_aset rest k p.1 v).mp hc with hc' | hc'
      · exact h.1 hc'
      · exact hp hc'

theorem alookup_of_mem_nodup {κ β : Type} [DecidableEq κ] (d : List (κ × β)) (k : κ) (v : β)
    (hmem : (k, v) ∈ d) (hnd : (d.map Prod.fst).Nodup) : alookup d k = some v := by
  induction d with
  | nil => cases hmem
  | cons p rest ih =>
    simp only [List.map_cons, List.nodup_cons] at hnd
    rcases List.mem_cons.mp hmem with h | h
    · rw [← h]
      simp [alookup]
    · have hk : p.1 ≠ k := by
        intro hc
        exact hnd.1 (hc ▸ (List.mem_map.mpr ⟨(k, v), h, rfl⟩))
      simp only [alookup, hk, if_false]
      exact ih h hnd.2

theorem mem_of_alookup {κ β : Type} [DecidableEq κ] (d : List (κ × β)) (k : κ) (v : β)
    (h : alookup d k = some v) : (k, v) ∈ d := by
  induction d with
  | nil => cases h
  | cons p rest ih =>
    by_cases hp : p.1 = k
    · simp only [alookup, hp, if_true, Option.some.injEq] at h
      have hpk : p = (k, v) := Prod.ext_iff.mpr ⟨hp, h⟩
      rw [← hpk]
      exact List.mem_cons_self p rest
    · simp only [alookup, hp, if_false] at h
      exact List.mem_cons_of_mem p (ih h)

theorem seriesDedup_alookup_aux (raw : List (Int × XFact)) (d : List (Int × ℚ)) (y : Int) :
    alookup
      (raw.foldl
        (fun d p =>
          match p.2.value with
          | some v => aset d p.1 v
          | none => d) d) y =
      match lastParsedValue raw y with
      | some v => some v
      | none => alookup d y := by
  induction raw generalizing d with
  | nil => simp [lastParsedValue]
  | cons p rest ih =>
    simp only [List.foldl, lastParsedValue]
    rcases hv : p.2.value with _ | v
    · rw [ih d]
      rcases lastParsedValue rest y with _ | w
      · by_cases hy : p.1 = y
        · simp [hy, hv]
        · simp [hy]
      · simp
    · rw [ih (aset d p.1 v)]
      rcases lastParsedValue rest y with _ | w
      · by_cases hy : p.1 = y
        · rw [hy]
          simp [alookup_aset, hy, hv]
        · have : y ≠ p.1 := fun hc => hy hc.symm
          simp [alookup_aset_ne d p.1 y v this, hy]
      · simp

theorem seriesDedup_alookup (raw : List (Int × XFact)) (y : Int) :
    alookup (seriesDedup raw) y = lastParsedValue raw y := by
  unfold seriesDedup
  rw [seriesDedup_alookup_aux raw [] y]
  rcases lastParsedValue raw y with _ | v <;> simp [alookup]

theorem seriesDedup_nodup (raw : List (Int × XFact)) :
    ((seriesDedup raw).map Prod.fst).Nodup := by
  unfold seriesDedup
  suffices h : ∀ (d : List (Int × ℚ)), (d.map Prod.fst).Nodup →
      ((raw.foldl
        (fun d p =>
          match p.2.value with
          | some v => aset d p.1 v
          | none => d) d).map Prod.fst).Nodup by
    exact h [] (by simp)
  induction raw with
  | nil => intro d hd; exact hd
  | cons p rest ih =>
    intro d hd
    simp only [List.foldl]
    rcases hv : p.2.value with _ | v
    · exact ih d hd
    · exact ih (aset d p.1 v) (nodup_map_fst_aset d p.1 v hd)

/-- **C5.**  The base time series of `build_concept_series` is strictly
increasing in year (hence has at most one value per year), and its value
at a year is exactly the value of the last matched fact in input order
with that end-year whose raw value parses as a number (last-write-wins
dedup by year key). -/
theorem claim5_series (concept : String) (all_facts : List XFact) :
    (build_concept_series concept all_facts).Pairwise (fun a b => a.1 < b.1) ∧
    ∀ y v, ((y, v) ∈ build_concept_series concept all_facts ↔
      lastParsedValue (rawMatches concept all_facts) y = some v) := by
  constructor
  · have hsorted := sSort_sorted (fun a b : Int × ℚ => decide (a.1 ≤ b.1))
      (fun a b c h1 h2 => by
        simp only [decide_eq_true_eq] at h1 h2 ⊢
        omega)
      (fun a b => by
        rcases le_total a.1 b.1 with h | h
        · exact Or.inl (by simpa using h)
        · exact Or.inr (by simpa using h))
      (seriesDedup (rawMatches concept all_facts))
    have hperm := sSort_perm (fun a b : Int × ℚ => decide (a.1 ≤ b.1))
      (seriesDedup (rawMatches concept all_facts))
    have hnd : ((build_concept_series concept all_facts).map Prod.fst).Nodup := by
      unfold build_concept_series
      exact ((hperm.map Prod.fst).nodup_iff).mpr (seriesDedup_nodup _)
    have hne : (build_concept_series concept all_facts).Pairwise
        (fun a b : Int × ℚ => a.1 ≠ b.1) := by
      rw [← List.pairwise_map (f := Prod.fst)]
      exact hnd
    have hle : (build_concept_series concept all_facts).Pairwise
        (fun a b : Int × ℚ => decide (a.1 ≤ b.1) = true) := hsorted
    have := hle.and hne
    apply this.imp
    intro a b hab
    have h1 := hab.1
    simp only [decide_eq_true_eq] at h1
    exact lt_of_le_of_ne h1 hab.2
  · intro y v
    unfold build_concept_series
    rw [(sSort_perm _ _).mem_iff]
    constructor
    · intro hmem
      rw [← seriesDedup_alookup]
      exact alookup_of_mem_nodup _ y v hmem (seriesDedup_nodup _)
    · intro hlast
      exact mem_of_alookup _ y v (by rw [seriesDedup_alookup]; exact hlast)

/-- **C10 (counterexample).**  A year-specific query can return `None`
even though a matching, dated, numerically-parsable fact exists: with
facts (2020, unparsable), (2019, 50), (2021, unparsable) and
`year = 2020`, the exact match fails to parse, the nearest-by-distance
fact is the 2020 one (unparsable), the latest-year fallback is the 2021
one (unparsable), and the function returns `None` although the 2019
fact parses to 50. -/
theorem claim10_counterexample :
    get_concept_value "Revenues"
      [⟨some "Revenues", some "Revenues", none, some 2020⟩,
       ⟨some "Revenues", some "Revenues", some 50, some 2019⟩,
       ⟨some "Revenues", some "Revenues", none, some 2021⟩] (some 2020) = none ∧
    (⟨some "Revenues", some "Revenues", some 50, some 2019⟩ : XFact) ∈
      gcvMatches "Revenues"
        [⟨some "Revenues", some "Revenues", none, some 2020⟩,
         ⟨some "Revenues", some "Revenues", some 50, some 2019⟩,
         ⟨some "Revenues", some "Revenues", none, some 2021⟩] ∧
    (⟨some "Revenues", some "Revenues", some 50, some 2019⟩ : XFact).value = some 50 ∧
    (⟨some "Revenues", some "Revenues", some 50, some 2019⟩ : XFact).endYear = some 2019 :=
  ⟨by decide, by decide, rfl, rfl⟩

/-- **C10 (amended).**  When a year-specific query has dated matches but
none with exactly the requested year, the result is not `None` whenever
the nearest fact (by absolute end-year distance, input order on ties)
has a parsable value: that fact's value is returned even though it is
from a different year.  (`None` can still occur when both the nearest
fact and the latest-year fallback fail to parse, even if some other
matched dated fact parses.) -/
theorem claim10_amended (concept : String) (all_facts : List XFact) (yr : Int)
    (p0 : Int × XFact) (v : ℚ)
    (hexact : ∀ p ∈ gcvDated concept all_facts, p.1 ≠ yr)
    (hhead : (nearestSort (gcvDated concept all_facts) yr).head? = some p0)
    (hval : p0.2.value = some v) :
    get_concept_value concept all_facts (some yr) = some v := by
  have hdne : gcvDated concept all_facts ≠ [] := by
    intro hc
    rw [hc] at hhead
    simp [nearestSort, sSort] at hhead
  have hmne : gcvMatches concept all_facts ≠ [] := by
    intro hc
    apply hdne
    unfold gcvDated
    rw [hc]
    rfl
  unfold get_concept_value
  rw [if_neg hmne]
  have hfilter : (gcvDated concept all_facts).filter (fun p => decide (p.1 = yr)) = [] :=
    List.filter_eq_nil_iff.mpr fun p hp => by simpa using hexact p hp
  simp only [hfilter, List.map_nil, List.getLast?_nil]
  have hemp : (gcvDated concept all_facts).isEmpty = false :=
    List.isEmpty_eq_false_iff_exists_mem.mpr
      (match gcvDated concept all_facts, hdne with
       | p :: _, _ => ⟨p, List.mem_cons_self p _⟩)
  simp only [hemp, Bool.false_eq_true, if_false, hhead]
  simp [hval]

/-- Witness for C10 (amended): a single 2019 fact queried with
year 2020 yields the 2019 value. -/
theorem claim10_amended_witness :
    get_concept_value "Revenues"
      [⟨some "Revenues", some "Revenues", some 7, some 2019⟩] (some 2020) = some 7 :=
  claim10_amended "Revenues" [⟨some "Revenues", some "Revenues", some 7, some 2019⟩] 2020
    (2019, ⟨some "Revenues", some "Revenues", some 7, some 2019⟩) 7
    (by decide) (by decide) rfl

/-! ## Fact index (`src/xbrl/fact_index.py`)

Dates are modelled post-parse: a context field holds the
`_parse_date(...)` outcome (`none` = missing/unparsable).  `datetime`
comparison is lexicographic on (year, month, day) (times are midnight
for date-only strings); `timedelta.days` is the difference of proleptic
Gregorian day numbers.  `datetime.min` is 0001-01-01. -/

structure PDate where
  year : Int
  month : Int
  day : Int
deriving DecidableEq

/-- `datetime` comparison (lexicographic). -/
def pdLE (a b : PDate) : Bool :=
  decide (a.year < b.year) ||
  (decide (a.year = b.year) &&
    (decide (a.month < b.month) ||
     (decide (a.month = b.month) && decide (a.day ≤ b.day))))

def pdLT (a b : PDate) : Bool := pdLE a b && !(pdLE b a)

/-- Python `max` over dates: later operand wins only when strictly
later, so the first of equal maxima is kept. -/
def pdMax (a b : PDate) : PDate := if pdLE b a then a else b

/-- Proleptic Gregorian day number (days-from-civil); only differences
are used (for `timedelta.days`). -/
def pdOrdinal (d : PDate) : Int :=
  let y := if d.month ≤ 2 then d.year - 1 else d.year
  let era := Int.fdiv y 400
  let yoe := y - era * 400
  let doy := Int.fdiv (153 * (d.month + (if d.month > 2 then -3 else 9)) + 2) 5 + d.day - 1
  let doe := yoe * 365 + Int.fdiv yoe 4 - Int.fdiv yoe 100 + doy
  era * 146097 + doe

structure PCtx where
  period_type : Option String
  period_start : Option PDate
  period_end : Option PDate
  period_instant : Option PDate
deriving DecidableEq

/-- A filing's `contexts` dict (insertion order). -/
abbrev Ctxs := List (String × PCtx)

/-- `(context.get("period_type") or "").lower()`. -/
def ctxTypeLower (c : PCtx) : String := lowerStr (c.period_type.getD "")

/-- `_context_end_date`. -/
def context_end_date (c : PCtx) : Option PDate :=
  if ctxTypeLower c = "instant" then c.period_instant
  else c.period_end <|> c.period_instant

/-- `_context_sort_date`. -/
def context_sort_date (c : PCtx) : Option PDate :=
  context_end_date c <|> c.period_start

/-- `_context_duration_days`. -/
def context_duration_days (c : PCtx) : Option Int :=
  match c.period_start, c.period_end with
  | some s, some e => some (pdOrdinal e - pdOrdinal s)
  | _, _ => none

/-- The sort key of `_sort_context_ids`:
`_context_sort_date(contexts.get(cid)) or datetime.min`. -/
def ctxSortKey (ctxs : Ctxs) (cid : String) : PDate :=
  (match alookup ctxs cid with
   | some c => context_sort_date c
   | none => none).getD ⟨1, 1, 1⟩

/-- `_sort_context_ids`: stable sort, newest first. -/
def sort_context_ids (ids : List String) (ctxs : Ctxs) : List String :=
  sSort (fun a b => pdLE (ctxSortKey ctxs b) (ctxSortKey ctxs a)) ids

/-- Python `int(s)`: optional surrounding whitespace, optional sign,
decimal digits. -/
def digitsValAux : List Char → Nat → Option Nat
  | [], acc => some acc
  | c :: rest, acc =>
    if c.isDigit then digitsValAux rest (acc * 10 + (c.toNat - 48)) else none

def pyInt? (s : String) : Option Int :=
  match (trimStr s).data with
  | [] => none
  | '-' :: rest => if rest.isEmpty then none else (digitsValAux rest 0).map fun n => -(n : Int)
  | '+' :: rest => if rest.isEmpty then none else (digitsValAux rest 0).map fun n => (n : Int)
  | c :: rest => (digitsValAux (c :: rest) 0).map fun n => (n : Int)

/-- The `LATEST` branch: contexts sharing the maximum sort date, in
dict order. -/
def rpLatest (ctxs : Ctxs) : List String :=
  let dated := ctxs.filterMap fun p => (context_sort_date p.2).map fun d => (p.1, d)
  match dated with
  | [] => []
  | d0 :: rest =>
    let maxDate := rest.foldl (fun acc p => pdMax acc p.2) d0.2
    (dated.filter fun p => p.2 = maxDate).map Prod.fst

/-- Whether the `MRQ` tuple sort compares a pair with equal dates and
exactly one defined duration — Python's tuple comparison then raises
`TypeError` (`None` vs `int`). -/
def mrqMixedTie (l : List (PDate × Option Int × String)) : Bool :=
  l.any fun a => l.any fun b => a.1 = b.1 && a.2.1.isSome && b.2.1.isNone

/-- Descending order on the `(date, length, cid)` tuples of the `MRQ`
branch.  In the non-error case, tied dates have same-presence lengths,
so `getD 0` is faithful. -/
def durTupleLE (a b : PDate × Option Int × String) : Bool :=
  pdLT b.1 a.1 ||
  (decide (b.1 = a.1) &&
    (decide (b.2.1.getD 0 < a.2.1.getD 0) ||
     (decide (b.2.1.getD 0 = a.2.1.getD 0) && decide (b.2.2 ≤ a.2.2))))

/-- The `MRQ` branch. -/
def rpMRQ (ctxs : Ctxs) : Except Unit (List String) :=
  let durations := ctxs.filterMap fun p =>
    if ctxTypeLower p.2 = "duration" then
      (context_sort_date p.2).map fun d => (d, context_duration_days p.2, p.1)
    else none
  if mrqMixedTie durations then .error ()
  else
    let sortedDur := sSort durTupleLE durations
    let quarter_like : List String := sortedDur.filterMap fun t =>
      match t.2.1 with
      | some len => if 70 ≤ len ∧ len ≤ 120 then some t.2.2 else none
      | none => none
    let targets := if quarter_like = [] then sortedDur.map fun t => t.2.2 else quarter_like
    .ok (sort_context_ids targets ctxs)

/-- The `Q1`–`Q4` branch for a target fiscal-quarter-end month. -/
def rpQuarter (ctxs : Ctxs) (target_month : Int) : List String :=
  let ms := ctxs.filterMap fun p =>
    if ctxTypeLower p.2 = "duration" then
      match context_end_date p.2 with
      | some e => if e.month = target_month then some p.1 else none
      | none => none
    else none
  sort_context_ids ms ctxs

/-- The `FYnnnn` branch for a parsed year. -/
def rpFY (ctxs : Ctxs) (y : Int) : List String :=
  let ms := ctxs.filterMap fun p =>
    if ctxTypeLower p.2 = "duration" then
      match context_end_date p.2 with
      | some e => if e.year = y then some p.1 else none
      | none => none
    else none
  sort_context_ids ms ctxs

/-- `FactIndex.resolve_period(period_alias)`.  `Except.error` models the
`TypeError` the `MRQ` tuple sort can raise. -/
def resolve_period (ctxs : Ctxs) (period_alias : Option String) : Except Unit (List String) :=
  if ctxs = [] then .ok []
  else
    match period_alias with
    | none => .ok []
    | some pa =>
      if pa = "" then .ok []
      else
        let aliasS := trimStr pa
        if aliasS = "" then .ok []
        else
          let aliasUpper := upperStr aliasS
          if (alookup ctxs aliasS).isSome then .ok [aliasS]
          else if aliasUpper = "LATEST" then .ok (rpLatest ctxs)
          else if aliasUpper = "MRQ" then rpMRQ ctxs
          else
            match alookup [("Q1", (3 : Int)), ("Q2", 6), ("Q3", 9), ("Q4", 12)] aliasUpper with
            | some m => .ok (rpQuarter ctxs m)
            | none =>
              if "FY".data.isPrefixOf aliasUpper.data then
                match pyInt? ⟨aliasUpper.data.drop 2⟩ with
                | some y => if y ≠ 0 then .ok (rpFY ctxs y) else .ok []
                | none => .ok []
              else .ok []

/-- `_preferred_period_type` (the alias is uppercased but not
stripped here, as in the source). -/
def preferredPeriodType (period_alias : Option String) : Option String :=
  match period_alias with
  | none => none
  | some pa =>
    if pa = "" then none
    else
      let al := upperStr pa
      if "FY".data.isPrefixOf al.data || al = "MRQ" || al = "Q1" || al = "Q2" || al = "Q3"
          || al = "Q4" then
        some "duration"
      else none

/-- A fact record of the fact index (post-parse `numeric_value`). -/
structure FIFact where
  tag : Option String
  contextRef : Option String
  context : Option String
  numeric_value : Option ℚ
deriving DecidableEq

/-- `get_facts_by_tag`: case-insensitive tag membership. -/
def get_facts_by_tag (facts : List FIFact) (tags : List String) : List FIFact :=
  let tl := tags.map lowerStr
  if tl = [] then []
  else facts.filter fun f => tl.contains (lowerStr (f.tag.getD ""))

/-- The context a fact's reference resolves to
(`fact.get("contextRef") or fact.get("context", "")`). -/
def factCtx (ctxs : Ctxs) (f : FIFact) : Option PCtx :=
  let cref :=
    match f.contextRef with
    | some s => if s = "" then f.context.getD "" else s
    | none => f.context.getD ""
  alookup ctxs cref

/-- The date component of `_fact_sort_key`
(`_context_sort_date(context or {})`). -/
def factDate (ctxs : Ctxs) (f : FIFact) : Option PDate :=
  match factCtx ctxs f with
  | some c => context_sort_date c
  | none => none

def factNumRank (f : FIFact) : Nat := if f.numeric_value.isSome then 0 else 1

def factPeriodRank (ctxs : Ctxs) (pref : Option String) (f : FIFact) : Nat :=
  match pref with
  | none => 0
  | some pt =>
    match factCtx ctxs f with
    | some c => if ctxTypeLower c = pt then 0 else 1
    | none => 1

/-- Ascending order on `-date.timestamp()` (later date first), missing
date = `+inf`. -/
def dateRankLE (x y : Option PDate) : Bool :=
  match x, y with
  | none, none => true
  | none, some _ => false
  | some _, none => true
  | some a, some b => pdLE b a

/-- Ascending lexicographic order on `_fact_sort_key`. -/
def factLE (ctxs : Ctxs) (pref : Option String) (a b : FIFact) : Bool :=
  decide (factNumRank a < factNumRank b) ||
  (decide (factNumRank a = factNumRank b) &&
    (decide (factPeriodRank ctxs pref a < factPeriodRank ctxs pref b) ||
     (decide (factPeriodRank ctxs pref a = factPeriodRank ctxs pref b) &&
      dateRankLE (factDate ctxs a) (factDate ctxs b))))

/-- The ranking step of `get_fact`: stable sort by `_fact_sort_key` and
take the first candidate. -/
def rank_candidates (ctxs : Ctxs) (pref : Option String) (cands : List FIFact) :
    Option FIFact :=
  (sSort (factLE ctxs pref) cands).head?

def truthyStr : Option String → Bool
  | some s => s ≠ ""
  | none => false

/-- `x in allowed_contexts` for an optional string (Python `None` is
never in a list of strings). -/
def optMem (o : Option String) (l : List String) : Bool :=
  match o with
  | some s => l.contains s
  | none => false

/-- `FactIndex.get_fact(tag_or_tags, period)`. -/
def get_fact (facts : List FIFact) (ctxs : Ctxs) (tags : List String)
    (period : Option String) : Except Unit (Option FIFact) :=
  let candidates := get_facts_by_tag facts tags
  if candidates = [] then .ok none
  else
    if truthyStr period then
      match resolve_period ctxs period with
      | .error e => .error e
      | .ok allowed =>
        if allowed = [] then .ok (rank_candidates ctxs (preferredPeriodType period) candidates)
        else
          let c2 := candidates.filter fun f =>
            optMem f.contextRef allowed || optMem f.context allowed
          if c2 = [] then .ok none
          else .ok (rank_candidates ctxs (preferredPeriodType period) c2)
    else .ok (rank_candidates ctxs (preferredPeriodType period) candidates)

instance {ε α : Type} [DecidableEq ε] [DecidableEq α] : DecidableEq (Except ε α) := fun a b =>
  match a, b with
  | .error e, .error f =>
    if h : e = f then .isTrue (h ▸ rfl) else .isFalse fun hc => h (Except.error.inj hc)
  | .ok x, .ok y =>
    if h : x = y then .isTrue (h ▸ rfl) else .isFalse fun hc => h (Except.ok.inj hc)
  | .error _, .ok _ => .isFalse fun hc => Except.noConfusion hc
  | .ok _, .error _ => .isFalse fun hc => Except.noConfusion hc

/-- **C1 (counterexample).**  When the period alias resolves to zero
context ids, the intersection of matching facts with the resolved ids
is empty, yet `get_fact` does not return `None`: the empty resolution
disables the period filter and the best fact is returned.  Here
`FY2019` matches no context, but the lone `rev` fact is returned. -/
theorem claim1_counterexample :
    resolve_period [("c1", ⟨some "duration", some ⟨2020, 1, 1⟩, some ⟨2020, 12, 31⟩, none⟩)]
      (some "FY2019") = .ok [] ∧
    get_fact [⟨some "rev", some "c1", none, some 5⟩]
      [("c1", ⟨some "duration", some ⟨2020, 1, 1⟩, some ⟨2020, 12, 31⟩, none⟩)]
      ["rev"] (some "FY2019") =
      .ok (some ⟨some "rev", some "c1", none, some 5⟩) :=
  ⟨by decide, by decide⟩

/-- **C1 (amended).**  For a truthy period alias: if the Period Resolver
returns a *non-empty* id set and no tag-matching fact's context is in
it, `get_fact` returns `None`; but if the alias resolves to *zero* ids,
the period filter is silently skipped and `get_fact` ranks all
tag-matching candidates (still using the alias's preferred period
type). -/
theorem claim1_amended (facts : List FIFact) (ctxs : Ctxs) (tags : List String)
    (pa : String) (ids : List String) (hpa : pa ≠ "")
    (hres : resolve_period ctxs (some pa) = .ok ids) :
    (ids ≠ [] →
      (∀ f ∈ get_facts_by_tag facts tags,
        optMem f.contextRef ids = false ∧ optMem f.context ids = false) →
      get_fact facts ctxs tags (some pa) = .ok none) ∧
    (ids = [] →
      get_fact facts ctxs tags (some pa) =
        .ok (rank_candidates ctxs (preferredPeriodType (some pa))
          (get_facts_by_tag facts tags))) := by
  have htr : truthyStr (some pa) = true := by
    simp [truthyStr, hpa]
  constructor
  · intro hne hfilter
    unfold get_fact
    by_cases hc : get_facts_by_tag facts tags = []
    · rw [if_pos hc]
    · rw [if_neg hc, if_pos htr]
      simp only [hres]
      rw [if_neg hne]
      have hc2 : (get_facts_by_tag facts tags).filter
          (fun f => optMem f.contextRef ids || optMem f.context ids) = [] := by
        apply List.filter_eq_nil_iff.mpr
        intro f hf
        have h := hfilter f hf
        simp [h.1, h.2]
      rw [hc2]
      simp
  · intro hids
    subst hids
    unfold get_fact
    by_cases hc : get_facts_by_tag facts tags = []
    · rw [if_pos hc, hc]
      simp [rank_candidates, sSort]
    · rw [if_neg hc, if_pos htr]
      simp only [hres]
      simp

/-- Witness for C1 (amended), zero-resolution branch: `FY2019` resolves
to no context, and the fact is returned by the unfiltered ranking. -/
theorem claim1_amended_witness :
    get_fact [⟨some "rev", some "c1", none, some 5⟩]
      [("c1", ⟨some "duration", some ⟨2020, 1, 1⟩, some ⟨2020, 12, 31⟩, none⟩)]
      ["rev"] (some "FY2019") =
      .ok (rank_candidates
        [("c1", ⟨some "duration", some ⟨2020, 1, 1⟩, some ⟨2020, 12, 31⟩, none⟩)]
        (preferredPeriodType (some "FY2019"))
        (get_facts_by_tag [⟨some "rev", some "c1", none, some 5⟩] ["rev"])) :=
  (claim1_amended [⟨some "rev", some "c1", none, some 5⟩]
    [("c1", ⟨some "duration", some ⟨2020, 1, 1⟩, some ⟨2020, 12, 31⟩, none⟩)]
    ["rev"] "FY2019" [] (by decide) (by decide)).2 rfl

/-! ## Period-resolver ordering lemmas and C7 -/

theorem pdLE_refl (a : PDate) : pdLE a a = true := by
  simp [pdLE]

theorem pdLE_total (a b : PDate) : pdLE a b = true ∨ pdLE b a = true := by
  simp only [pdLE, Bool.or_eq_true, Bool.and_eq_true, decide_eq_true_eq]
  omega

theorem pdLE_trans (a b c : PDate) (h1 : pdLE a b = true) (h2 : pdLE b c = true) :
    pdLE a c = true := by
  simp only [pdLE, Bool.or_eq_true, Bool.and_eq_true, decide_eq_true_eq] at h1 h2 ⊢
  omega

theorem sort_context_ids_sorted (ids : List String) (ctxs : Ctxs) :
    (sort_context_ids ids ctxs).Pairwise
      (fun a b => pdLE (ctxSortKey ctxs b) (ctxSortKey ctxs a) = true) := by
  apply sSort_sorted
  · intro a b c h1 h2
    exact pdLE_trans (ctxSortKey ctxs c) (ctxSortKey ctxs b) (ctxSortKey ctxs a) h2 h1
  · intro a b
    rcases pdLE_total (ctxSortKey ctxs b) (ctxSortKey ctxs a) with h | h
    · exact Or.inl h
    · exact Or.inr h

theorem pairwise_key_eq (ctxs : Ctxs) (l : List String) (m : PDate)
    (h : ∀ x ∈ l, ctxSortKey ctxs x = m) :
    l.Pairwise (fun a b => pdLE (ctxSortKey ctxs b) (ctxSortKey ctxs a) = true) := by
  induction l with
  | nil => exact List.Pairwise.nil
  | cons a rest ih =>
    refine List.pairwise_cons.mpr ⟨?_, ih fun x hx => h x (List.mem_cons_of_mem a hx)⟩
    intro b hb
    rw [h b (List.mem_cons_of_mem a hb), h a (List.mem_cons_self a rest)]
    exact pdLE_refl m

theorem rpLatest_key (ctxs : Ctxs) (hnd : (ctxs.map Prod.fst).Nodup) :
    ∃ m, ∀ cid ∈ rpLatest ctxs, ctxSortKey ctxs cid = m := by
  unfold rpLatest
  rcases hd : ctxs.filterMap
      (fun p => (context_sort_date p.2).map fun d => (p.1, d)) with _ | ⟨d0, rest⟩
  · refine ⟨⟨1, 1, 1⟩, ?_⟩
    simp only [hd]
    intro cid hcid
    simp at hcid
  · refine ⟨rest.foldl (fun acc p => pdMax acc p.2) d0.2, ?_⟩
    simp only [hd]
    intro cid hcid
    simp only [List.mem_map] at hcid
    obtain ⟨pr, hpr, hpr1⟩ := hcid
    have hprf := List.mem_filter.mp hpr
    have hprd : pr ∈ ctxs.filterMap
        (fun p => (context_sort_date p.2).map fun d => (p.1, d)) := by
      rw [hd]
      exact hprf.1
    obtain ⟨p, hp, hfp⟩ := List.mem_filterMap.mp hprd
    rcases hcs : context_sort_date p.2 with _ | dd
    · rw [hcs] at hfp; cases hfp
    · rw [hcs] at hfp
      simp only [Option.map_some', Option.some.injEq] at hfp
      have hpl : alookup ctxs p.1 = some p.2 :=
        alookup_of_mem_nodup ctxs p.1 p.2 hp hnd
      have hkey : ctxSortKey ctxs cid = dd := by
        rw [← hpr1, ← hfp]
        unfold ctxSortKey
        simp only [hpl, hcs, Option.getD_some]
      have hmax : pr.2 = rest.foldl (fun acc p => pdMax acc p.2) d0.2 := by
        simpa using hprf.2
      rw [← hfp] at hmax
      simp only at hmax
      rw [hkey, hmax]

/-- **C7 (counterexample).**  Three duration contexts share the end date
2020-12-31 with start dates Jan 1, Jun 1, Mar 1 (dict insertion order
c1, c2, c3).  `FY2020` returns them in insertion order — their start
dates (Jan, Jun, Mar) are neither newest-first nor oldest-first, so
ties on end date are *not* broken by period start date. -/
theorem claim7_counterexample :
    resolve_period
      [("c1", ⟨some "duration", some ⟨2020, 1, 1⟩, some ⟨2020, 12, 31⟩, none⟩),
       ("c2", ⟨some "duration", some ⟨2020, 6, 1⟩, some ⟨2020, 12, 31⟩, none⟩),
       ("c3", ⟨some "duration", some ⟨2020, 3, 1⟩, some ⟨2020, 12, 31⟩, none⟩)]
      (some "FY2020") = .ok ["c1", "c2", "c3"] ∧
    ¬ List.Pairwise (fun a b : PDate => pdLE b a = true)
      [⟨2020, 1, 1⟩, ⟨2020, 6, 1⟩, ⟨2020, 3, 1⟩] ∧
    ¬ List.Pairwise (fun a b : PDate => pdLE a b = true)
      [⟨2020, 1, 1⟩, ⟨2020, 6, 1⟩, ⟨2020, 3, 1⟩] :=
  ⟨by decide, by decide, by decide⟩

/-- **C7 (amended).**  Every multi-result period resolution is ordered
newest-first by the context sort date (end date, falling back to the
start date when no end is determinable); contexts with equal sort dates
keep their prior relative order (dict insertion order; for `MRQ`, the
duration-tuple order) — the start date is not used as a tie-break. -/
theorem claim7_amended (ctxs : Ctxs) (pa : Option String) (ids : List String)
    (hnd : (ctxs.map Prod.fst).Nodup)
    (hres : resolve_period ctxs pa = .ok ids) :
    ids.Pairwise (fun a b => pdLE (ctxSortKey ctxs b) (ctxSortKey ctxs a) = true) := by
  unfold resolve_period at hres
  simp only [] at hres
  split at hres
  · cases hres; exact List.Pairwise.nil
  · split at hres
    · cases hres; exact List.Pairwise.nil
    · rename_i pa'
      split at hres
      · cases hres; exact List.Pairwise.nil
      · split at hres
        · cases hres; exact List.Pairwise.nil
        · split at hres
          · cases hres; exact List.pairwise_singleton _ _
          · split at hres
            · cases hres
              obtain ⟨m, hm⟩ := rpLatest_key ctxs hnd
              exact pairwise_key_eq ctxs _ m hm
            · split at hres
              · -- MRQ
                unfold rpMRQ at hres
                simp only [] at hres
                split at hres
                · cases hres
                · cases hres
                  exact sort_context_ids_sorted _ ctxs
              · split at hres
                · cases hres
                  exact sort_context_ids_sorted _ ctxs
                · split at hres
                  · split at hres
                    · split at hres
                      · cases hres
                        exact sort_context_ids_sorted _ ctxs
                      · cases hres; exact List.Pairwise.nil
                    · cases hres; exact List.Pairwise.nil
                  · cases hres; exact List.Pairwise.nil

/-- Witness for C7 (amended): an `FY2021` resolution over two contexts
comes out newest-first. -/
theorem claim7_amended_witness :
    resolve_period
      [("a", ⟨some "duration", some ⟨2021, 1, 1⟩, some ⟨2021, 6, 30⟩, none⟩),
       ("b", ⟨some "duration", some ⟨2021, 1, 1⟩, some ⟨2021, 12, 31⟩, none⟩)]
      (some "FY2021") = .ok ["b", "a"] ∧
    List.Pairwise
      (fun x y => pdLE
        (ctxSortKey
          [("a", ⟨some "duration", some ⟨2021, 1, 1⟩, some ⟨2021, 6, 30⟩, none⟩),
           ("b", ⟨some "duration", some ⟨2021, 1, 1⟩, some ⟨2021, 12, 31⟩, none⟩)] y)
        (ctxSortKey
          [("a", ⟨some "duration", some ⟨2021, 1, 1⟩, some ⟨2021, 6, 30⟩, none⟩),
           ("b", ⟨some "duration", some ⟨2021, 1, 1⟩, some ⟨2021, 12, 31⟩, none⟩)] x) = true)
      ["b", "a"] := by
  have h := claim7_amended
    [("a", ⟨some "duration", some ⟨2021, 1, 1⟩, some ⟨2021, 6, 30⟩, none⟩),
     ("b", ⟨some "duration", some ⟨2021, 1, 1⟩, some ⟨2021, 12, 31⟩, none⟩)]
    (some "FY2021") ["b", "a"] (by decide) (by decide)
  exact ⟨by decide, h⟩

/-! ### Unit economics: the effective tax rate input (`unit_economics.py`) -/

/-- Python truthiness for an optional number: `None` and `0.0` are falsy. -/
def truthyNum : Option ℚ → Bool
  | none => false
  | some q => decide (q ≠ 0)

/-- The `TaxRate` fragment of `compute_unit_economics` (`unit_economics.py`,
lines 33-40): `inputs["TaxRate"] = 0.21`, then if
`tax_provision and pre_tax and pre_tax > 0` the rate is replaced by
`max(0.0, min(tax_provision / pre_tax, 0.5))`. -/
def compute_tax_rate (tax_provision pre_tax : Option ℚ) : ℚ :=
  if truthyNum tax_provision && truthyNum pre_tax && decide (0 < pre_tax.getD 0) then
    max 0 (min (tax_provision.getD 0 / pre_tax.getD 0) (1/2))
  else 21/100

/-! ### Cost structure: fixed/variable split (`cost_structure.py`) -/

/-- `_safe_div` (`cost_structure.py` lines 73-77): `None` if either operand is
`None` or the denominator is zero, otherwise the quotient. -/
def safe_div (num den : Option ℚ) : Option ℚ :=
  match num, den with
  | some n, some d => if d = 0 then none else some (n / d)
  | _, _ => none

/-- The `default_shares` table of `compute_fixed_variable_split`. -/
def default_shares : List (String × ℚ) :=
  [("COGS", 1), ("RnD", 0), ("SalesMarketing", 1/2), ("GandA", 0)]

/-- `elasticities.get(bucket, {}).get(p)`: absent bucket, absent period and a
stored `None` all come out as `None`. -/
def elasAt (elasticities : List (String × List (Int × Option ℚ))) (b : String) (p : Int) :
    Option ℚ :=
  match alookup elasticities b with
  | some d => (alookup d p).bind id
  | none => none

/-- `bucket_variable_shares[bucket][p] = share` on the nested mapping. -/
def bvsSet (m : List (String × List (Int × ℚ))) (b : String) (p : Int) (s : ℚ) :
    List (String × List (Int × ℚ)) :=
  aset m b (aset ((alookup m b).getD []) p s)

/-- The four result dictionaries of `compute_fixed_variable_split`. -/
structure SplitResults where
  variable_cost : List (Int × ℚ)
  fixed_cost : List (Int × ℚ)
  variable_share : List (Int × Option ℚ)
  total : List (Int × ℚ)

/-- Body of the inner `for bucket, data in buckets.items()` loop of
`compute_fixed_variable_split` for period `p`: skip a `None` cost, add the
cost to the running total, pick the share (clamped elasticity when defined,
else the bucket's default share, else `0.0`), record it and accumulate the
variable part. The accumulator is `(total_cost, total_variable,
bucket_variable_shares)`. -/
def splitBucketStep (elasticities : List (String × List (Int × Option ℚ))) (p : Int)
    (acc : ℚ × ℚ × List (String × List (Int × ℚ)))
    (bk : String × List (Int × Option ℚ)) : ℚ × ℚ × List (String × List (Int × ℚ)) :=
  match (alookup bk.2 p).bind id with
  | none => acc
  | some cost =>
    let share : ℚ :=
      match elasAt elasticities bk.1 p with
      | some elas => max 0 (min elas 1)
      | none => (alookup default_shares bk.1).getD 0
    (acc.1 + cost, acc.2.1 + cost * share, bvsSet acc.2.2 bk.1 p share)

/-- One iteration of the outer `for p in sorted_periods` loop: run the bucket
loop, then store `total`, `variable_cost`, `fixed_cost` and `variable_share`
for period `p`. -/
def splitPeriod (elasticities buckets : List (String × List (Int × Option ℚ)))
    (st : SplitResults × List (String × List (Int × ℚ))) (p : Int) :
    SplitResults × List (String × List (Int × ℚ)) :=
  let inner := buckets.foldl (splitBucketStep elasticities p) (0, 0, st.2)
  (⟨aset st.1.variable_cost p inner.2.1,
    aset st.1.fixed_cost p (inner.1 - inner.2.1),
    aset st.1.variable_share p (safe_div (some inner.2.1) (some inner.1)),
    aset st.1.total p inner.1⟩, inner.2.2)

/-- `sorted(list({p for b in buckets.values() for p in b.keys()}))`. -/
def sorted_periods (buckets : List (String × List (Int × Option ℚ))) : List Int :=
  sSort (fun a b => decide (a ≤ b)) ((buckets.flatMap (fun b => b.2.map Prod.fst)).dedup)

/-- `CostStructureEngine.compute_fixed_variable_split` (`cost_structure.py`
lines 166-239). `volume_series` is accepted and unused, as in the source. -/
def compute_fixed_variable_split
    (buckets elasticities : List (String × List (Int × Option ℚ)))
    (volume_series : List (Int × Option ℚ)) : SplitResults × List (String × List (Int × ℚ)) :=
  (sorted_periods buckets).foldl (splitPeriod elasticities buckets)
    (⟨[], [], [], []⟩, buckets.map (fun b => (b.1, [])))

/-- First-period cost buckets of the C9 scenario. -/
def c9buckets : List (String × List (Int × Option ℚ)) :=
  [("COGS", [((2023 : Int), some 600)]), ("RnD", [(2023, some 100)]),
   ("SalesMarketing", [(2023, some 150)]), ("GandA", [(2023, some 50)])]

/-- Elasticities for a first period: `estimate_elasticities` returns an empty
per-bucket mapping (its delta loop never runs with a single period). -/
def c9elasticities : List (String × List (Int × Option ℚ)) :=
  [("COGS", []), ("RnD", []), ("SalesMarketing", []), ("GandA", [])]

/-- C8 counterexample: a tax provision of exactly `0.0` is resolvable and the
clamped ratio `0/100` is `0`, yet `compute_unit_economics` keeps the default
`0.21`, because the guard tests Python truthiness (`if tax_provision and ...`)
rather than availability. -/
theorem claim8_counterexample :
    compute_tax_rate (some 0) (some 100) = 21/100 ∧
    max (0:ℚ) (min ((0:ℚ) / 100) (1/2)) = 0 ∧ (21/100 : ℚ) ≠ 0 := by
  refine ⟨?_, by norm_num, by norm_num⟩
  simp [compute_tax_rate, truthyNum]

/-- C8 (amended): the `TaxRate` input is the clamped ratio
`max 0 (min (tp/pt) 0.5)` whenever both figures are resolvable, the tax
provision is nonzero and the pre-tax income is strictly positive; in every
other case (either figure missing, a zero tax provision, or a non-positive
pre-tax income) the default `0.21` is kept. -/
theorem claim8_amended (tp pt : ℚ) :
    (tp ≠ 0 → 0 < pt →
      compute_tax_rate (some tp) (some pt) = max 0 (min (tp / pt) (1/2))) ∧
    (tp = 0 ∨ pt ≤ 0 → compute_tax_rate (some tp) (some pt) = 21/100) ∧
    compute_tax_rate none (some pt) = 21/100 ∧
    compute_tax_rate (some tp) none = 21/100 ∧
    compute_tax_rate none none = 21/100 := by
  refine ⟨?_, ?_, ?_, ?_, ?_⟩
  · intro h1 h2
    have h3 : pt ≠ 0 := ne_of_gt h2
    simp [compute_tax_rate, truthyNum, h1, h3, h2]
  · rintro (h | h)
    · simp [compute_tax_rate, truthyNum, h]
    · have h4 : ¬ (0 < pt) := not_lt.mpr h
      simp [compute_tax_rate, truthyNum, h4]
  · simp [compute_tax_rate, truthyNum]
  · simp [compute_tax_rate, truthyNum]
  · simp [compute_tax_rate, truthyNum]

/-- Witness for C8 (amended): a 30 provision on 100 of pre-tax income gives
the clamped ratio, which evaluates to `0.3`. -/
theorem claim8_amended_witness :
    compute_tax_rate (some 30) (some 100) = max 0 (min ((30:ℚ) / 100) (1/2)) ∧
    max (0:ℚ) (min ((30:ℚ) / 100) (1/2)) = 3/10 :=
  ⟨(claim8_amended 30 100).1 (by norm_num) (by norm_num), by norm_num⟩

/-- C9: on a first period (all elasticities undefined) with bucket costs
COGS=600, RnD=100, SalesMarketing=150, GandA=50, the default shares
(1, 0, 0.5, 0) apply and the split for that period is total 900,
variable 675, fixed 225, aggregate variable share 0.75; the recorded
per-bucket shares are the defaults. -/
theorem claim9_split :
    alookup (compute_fixed_variable_split c9buckets c9elasticities []).1.total 2023
      = some 900 ∧
    alookup (compute_fixed_variable_split c9buckets c9elasticities []).1.variable_cost 2023
      = some 675 ∧
    alookup (compute_fixed_variable_split c9buckets c9elasticities []).1.fixed_cost 2023
      = some 225 ∧
    alookup (compute_fixed_variable_split c9buckets c9elasticities []).1.variable_share 2023
      = some (some (3/4)) ∧
    (compute_fixed_variable_split c9buckets c9elasticities []).2
      = [("COGS", [(2023, 1)]), ("RnD", [(2023, 0)]),
         ("SalesMarketing", [(2023, 1/2)]), ("GandA", [(2023, 0)])] := by
  have hp : sorted_periods c9buckets = [(2023 : Int)] := by decide
  have e1 : (("COGS" : String) = "RnD") = False := eq_false (by decide)
  have e2 : (("COGS" : String) = "SalesMarketing") = False := eq_false (by decide)
  have e3 : (("RnD" : String) = "SalesMarketing") = False := eq_false (by decide)
  have e4 : (("COGS" : String) = "GandA") = False := eq_false (by decide)
  have e5 : (("RnD" : String) = "GandA") = False := eq_false (by decide)
  have e6 : (("SalesMarketing" : String) = "GandA") = False := eq_false (by decide)
  simp only [compute_fixed_variable_split, hp]
  norm_num [List.foldl, splitPeriod, splitBucketStep, c9buckets, c9elasticities,
    elasAt, default_shares, bvsSet, safe_div, alookup, aset, List.map,
    e1, e2, e3, e4, e5, e6]
